import Mathlib

/-!
Shallow embedding of the chess rules engine from `src/board.rs`
(repository brynblack/chess), together with theorems settling the
claims about it.

Modelling conventions:
* Rust `Vec` indexing `v[i]` panics when `i` is out of bounds, and
  `Option::unwrap` panics on `None`; both are modelled by an outer
  `Option` layer, `none` standing for a panic.  `Result<(), &str>` is
  modelled by `Except String Unit`.
* `usize` coordinates are `Nat`.  The Rust cast `as i8` wraps modulo
  2^8 into the signed range; it is modelled exactly by `i8cast`.
  The subsequent `i8` subtraction and `abs` are modelled on `Int`
  (they cannot overflow for values below 8, and every reachable call
  on an 8 by 8 board has coordinates below 8).
* `&mut self` methods are modelled as functions returning the new
  `Board` together with the `Result` value.
-/

namespace Chess

/-- Rust struct `Position` from board.rs: an (x, y) pair of `usize`. -/
structure Position where
  x : Nat
  y : Nat
deriving DecidableEq, Repr

/-- Rust struct `Move` from board.rs: old and new position. -/
structure Move where
  old_pos : Position
  new_pos : Position
deriving DecidableEq, Repr

/-- Rust enum `PieceColour`. -/
inductive PieceColour where
  | Black : PieceColour
  | White : PieceColour
deriving DecidableEq, Repr

/-- Rust enum `PieceKind`. -/
inductive PieceKind where
  | Bishop : PieceKind
  | King : PieceKind
  | Knight : PieceKind
  | Pawn : PieceKind
  | Queen : PieceKind
  | Rook : PieceKind
deriving DecidableEq, Repr

/-- Rust enum `Square`: either empty or a piece with a colour and a kind. -/
inductive Square where
  | Empty : Square
  | Piece (piece_colour : PieceColour) (piece_kind : PieceKind) : Square
deriving DecidableEq, Repr

/-- Method `Square::colour`. -/
def Square.colour : Square → Option PieceColour
  | .Empty => none
  | .Piece piece_colour _ => some piece_colour

/-- Method `Square::kind`. -/
def Square.kind : Square → Option PieceKind
  | .Empty => none
  | .Piece _ piece_kind => some piece_kind

/-- Whether a square matches the Rust pattern `Square::Piece { .. }`. -/
def Square.isPiece : Square → Bool
  | .Empty => false
  | .Piece _ _ => true

/-- Type alias `BoardLayout = Vec<Vec<Square>>`. -/
abbrev BoardLayout := List (List Square)

/-- Type alias `MoveList = Vec<Move>`. -/
abbrev MoveList := List Move

/-- Rust struct `Board` with its three private fields. -/
structure Board where
  layout : BoardLayout
  move_list : MoveList
  player : PieceColour
deriving DecidableEq, Repr

/-- The Rust cast `n as i8` applied to a `usize`: wrap modulo 256 into
the signed byte range.  For `n` below 128 this is just `n`. -/
def i8cast (n : Nat) : Int :=
  if n % 256 < 128 then ((n % 256 : Nat) : Int) else ((n % 256 : Nat) : Int) - 256

/-- The delta `pos.old_pos.x as i8 - pos.new_pos.x as i8` (exact on `Int`;
`i8` overflow is impossible for board coordinates, which are below 8 in
every reachable call). -/
def xDiff (m : Move) : Int := i8cast m.old_pos.x - i8cast m.new_pos.x

/-- The delta `pos.old_pos.y as i8 - pos.new_pos.y as i8`. -/
def yDiff (m : Move) : Int := i8cast m.old_pos.y - i8cast m.new_pos.y

/-- Rust `iter().enumerate()` combined with an early `return false` on a
hit: scan a list with its indices (starting at `i`) and report whether
any element satisfies the predicate. -/
def anyIdx (f : Nat → α → Bool) : Nat → List α → Bool
  | _, [] => false
  | i, a :: rest => f i a || anyIdx f (i + 1) rest

/-- The first double loop of `is_path_empty` (board.rs lines 226-238):
run when `old_pos.x == new_pos.x`; a hit is a piece square in the same
file with rank strictly between the two ranks (in either order). -/
def fileScanHit (m : Move) (layout : BoardLayout) : Bool :=
  anyIdx (fun y r =>
    anyIdx (fun x s =>
      s.isPiece &&
        (decide (x = m.old_pos.x) &&
          ((decide (y > m.old_pos.y) && decide (y < m.new_pos.y)) ||
           (decide (y > m.new_pos.y) && decide (y < m.old_pos.y))))) 0 r) 0 layout

/-- The second double loop of `is_path_empty` (board.rs lines 239-252):
run when `old_pos.y == new_pos.y`; a hit is a piece square in the same
rank with file strictly between the two files (in either order). -/
def rankScanHit (m : Move) (layout : BoardLayout) : Bool :=
  anyIdx (fun y r =>
    anyIdx (fun x s =>
      s.isPiece &&
        (decide (y = m.old_pos.y) &&
          ((decide (x > m.old_pos.x) && decide (x < m.new_pos.x)) ||
           (decide (x > m.new_pos.x) && decide (x < m.old_pos.x))))) 0 r) 0 layout

/-- The `pos` computed in the diagonal loop of `is_path_empty`
(board.rs lines 258-289): step `i` along the diagonal octant selected
by comparing the endpoint coordinates, as an `(x, y)` pair of `isize`. -/
def diagPos (m : Move) (i : Nat) : Int × Int :=
  if m.old_pos.x < m.new_pos.x ∧ m.old_pos.y < m.new_pos.y then
    ((m.old_pos.x : Int) + i, (m.old_pos.y : Int) + i)
  else if m.old_pos.x < m.new_pos.x ∧ m.old_pos.y > m.new_pos.y then
    ((m.old_pos.x : Int) + i, (m.old_pos.y : Int) - i)
  else if m.old_pos.x > m.new_pos.x ∧ m.old_pos.y < m.new_pos.y then
    ((m.old_pos.x : Int) - i, (m.old_pos.y : Int) + i)
  else
    ((m.old_pos.x : Int) - i, (m.old_pos.y : Int) - i)

/-- The indexing `board.layout[pos.1 as usize][pos.0 as usize]` where
`pos` holds `isize` values: a negative value wraps under `as usize` to
an index beyond any vector length, so any negative (or overlong) index
panics, modelled as `none`. -/
def squareAtZ (layout : BoardLayout) (y x : Int) : Option Square :=
  if y < 0 ∨ x < 0 then none
  else (layout[y.toNat]?).bind fun row => row[x.toNat]?

/-- The diagonal loop `for i in 1..x_diff` of `is_path_empty`
(board.rs lines 257-298), as a recursion on the number of remaining
iterations: returns `some false` on the first occupied interior square,
`none` if an indexing panics, else `some true`. -/
def diagScan (layout : BoardLayout) (m : Move) : Nat → Nat → Option Bool
  | _, 0 => some true
  | i, r + 1 =>
    (squareAtZ layout (diagPos m i).2 (diagPos m i).1).bind fun s =>
      if s.kind.isSome then some false else diagScan layout m (i + 1) r

/-- Free function `is_path_empty` from board.rs: the same-file scan,
then the same-rank scan, then (when `|x_diff| == |y_diff|`, computed
through `as i8` casts) the diagonal scan over `i in 1..x_diff`. -/
def is_path_empty (piece_move : Move) (board : Board) : Option Bool :=
  if piece_move.old_pos.x = piece_move.new_pos.x ∧ fileScanHit piece_move board.layout then
    some false
  else if piece_move.old_pos.y = piece_move.new_pos.y ∧ rankScanHit piece_move board.layout then
    some false
  else
    let x_diff := (xDiff piece_move).natAbs
    let y_diff := (yDiff piece_move).natAbs
    if x_diff = y_diff then diagScan board.layout piece_move 1 (x_diff - 1)
    else some true

/-- Rust short-circuit `&&` lifted over the panic layer: evaluate the
left operand; only when it is `true` evaluate the right one. -/
def sAnd (a b : Option Bool) : Option Bool :=
  a.bind fun x => if x then b else some false

/-- Rust short-circuit `||` lifted over the panic layer. -/
def sOr (a b : Option Bool) : Option Bool :=
  a.bind fun x => if x then some true else b

/-- The lookup `board.layout[pos.new_pos.y][pos.new_pos.x]` used by the
pawn arms of `is_move_valid` (panic modelled as `none`). -/
def destSquare (pos : Move) (board : Board) : Option Square :=
  (board.layout[pos.new_pos.y]?).bind fun row => row[pos.new_pos.x]?

/-- The pure geometry operand of the `&&` in the Rook, Bishop and Queen
arms of `is_move_valid`, exactly as written in the source: Rook is one
straight axis (not both equal), Bishop is equal absolute deltas, Queen
is the Bishop test or the Rook test. -/
def slideGeom : PieceKind → Move → Bool
  | PieceKind.Rook, pos =>
    (decide (pos.old_pos.x = pos.new_pos.x) && decide (pos.old_pos.y ≠ pos.new_pos.y)) ||
    (decide (pos.old_pos.y = pos.new_pos.y) && decide (pos.old_pos.x ≠ pos.new_pos.x))
  | PieceKind.Bishop, pos => decide ((xDiff pos).natAbs = (yDiff pos).natAbs)
  | PieceKind.Queen, pos =>
    decide ((xDiff pos).natAbs = (yDiff pos).natAbs) ||
    ((decide (pos.old_pos.x = pos.new_pos.x) && decide (pos.old_pos.y ≠ pos.new_pos.y)) ||
     (decide (pos.old_pos.y = pos.new_pos.y) && decide (pos.old_pos.x ≠ pos.new_pos.x)))
  | _, _ => false

/-- Method `PieceKind::is_move_valid` from board.rs, arm for arm, with
the Rust evaluation order of the short-circuit operators preserved. -/
def PieceKind.is_move_valid (k : PieceKind) (pos : Move) (colour : PieceColour)
    (board : Board) : Option Bool :=
  match k with
  | PieceKind.King =>
    some ((decide ((xDiff pos).natAbs = 1) && decide (pos.old_pos.y = pos.new_pos.y)) ||
          (decide ((yDiff pos).natAbs = 1) && decide (pos.old_pos.x = pos.new_pos.x)) ||
          (decide ((xDiff pos).natAbs = 1) && decide ((yDiff pos).natAbs = 1)))
  | PieceKind.Knight =>
    some ((decide ((xDiff pos).natAbs = 2) && decide ((yDiff pos).natAbs = 1)) ||
          (decide ((xDiff pos).natAbs = 1) && decide ((yDiff pos).natAbs = 2)))
  | PieceKind.Pawn =>
    match colour with
    | PieceColour.Black =>
      sOr (sOr
        (sAnd (sAnd (sAnd (is_path_empty pos board) (some (decide (yDiff pos = -1))))
          (some (decide ((xDiff pos).natAbs = 1))))
          ((destSquare pos board).map fun s => s.kind.isSome))
        (sAnd (sAnd (sAnd (some (decide (yDiff pos = -1))) (is_path_empty pos board))
          ((destSquare pos board).map fun s => s.kind.isNone))
          (some (decide (pos.old_pos.x = pos.new_pos.x)))))
        (sAnd (sAnd (some (decide (yDiff pos = -2))) (is_path_empty pos board))
          (some (decide (pos.old_pos.x = pos.new_pos.x))))
    | PieceColour.White =>
      sOr (sOr
        (sAnd (sAnd (sAnd (is_path_empty pos board) (some (decide (yDiff pos = 1))))
          (some (decide ((xDiff pos).natAbs = 1))))
          ((destSquare pos board).map fun s => s.kind.isSome))
        (sAnd (sAnd (sAnd (some (decide (yDiff pos = 1))) (is_path_empty pos board))
          ((destSquare pos board).map fun s => s.kind.isNone))
          (some (decide (pos.old_pos.x = pos.new_pos.x)))))
        (sAnd (sAnd (some (decide (yDiff pos = 2))) (is_path_empty pos board))
          (some (decide (pos.old_pos.x = pos.new_pos.x))))
  | PieceKind.Queen =>
    sAnd (is_path_empty pos board) (some (slideGeom PieceKind.Queen pos))
  | PieceKind.Bishop =>
    sAnd (is_path_empty pos board) (some (slideGeom PieceKind.Bishop pos))
  | PieceKind.Rook =>
    sAnd (is_path_empty pos board) (some (slideGeom PieceKind.Rook pos))

/-- Method `Board::check_valid` from board.rs, check for check in source
order.  Note the bounds tests use `>` (not `>=`) exactly as the source
does, and each vector indexing is threaded through the panic layer. -/
def Board.check_valid (b : Board) (piece_move : Move) : Option (Except String Unit) :=
  if piece_move.old_pos.y > b.layout.length then
    some (Except.error "Error: Origin square is out of bounds!")
  else
    (b.layout[piece_move.old_pos.y]?).bind fun oldRow =>
    if piece_move.old_pos.x > oldRow.length then
      some (Except.error "Error: Origin square is out of bounds!")
    else if piece_move.new_pos.y > b.layout.length then
      some (Except.error "Error: Destination square is out of bounds!")
    else
      (b.layout[piece_move.new_pos.y]?).bind fun newRow =>
      if piece_move.new_pos.x > newRow.length then
        some (Except.error "Error: Destination square is out of bounds!")
      else
        (oldRow[piece_move.old_pos.x]?).bind fun old_square =>
        (newRow[piece_move.new_pos.x]?).bind fun new_square =>
        match old_square.colour with
        | none => some (Except.error "Error: You cannot move an empty square!")
        | some piece_colour =>
          if b.player ≠ piece_colour then
            some (Except.error "Error: You cannot move your opponent\x27s pieces!")
          else if new_square.colour = some b.player then
            some (Except.error "Error: You cannot capture your own pieces!")
          else
            old_square.kind.bind fun piece_kind =>
            (piece_kind.is_move_valid piece_move piece_colour b).map fun valid =>
              if valid then Except.ok () else Except.error "Error: Move is invalid!"

/-- Method `Board::next_turn`: swap the current player. -/
def Board.next_turn (b : Board) : Board :=
  { b with player := match b.player with
      | PieceColour.White => PieceColour.Black
      | PieceColour.Black => PieceColour.White }

/-- Method `Board::move_piece` from board.rs: run `check_valid`; on an
error return it with the board untouched (the source returns before any
mutation); on success `mem::replace` the origin square with `Empty`,
write the moved piece to the destination, push the move and flip the
player.  The result pairs the final board with the `Result` value. -/
def Board.move_piece (b : Board) (piece_move : Move) : Option (Board × Except String Unit) :=
  match b.check_valid piece_move with
  | none => none
  | some (Except.error err) => some (b, Except.error err)
  | some (Except.ok _) =>
    (b.layout[piece_move.old_pos.y]?).bind fun oldRow =>
    (oldRow[piece_move.old_pos.x]?).bind fun moved_piece =>
    let layout1 := b.layout.set piece_move.old_pos.y (oldRow.set piece_move.old_pos.x Square.Empty)
    (layout1[piece_move.new_pos.y]?).bind fun newRow =>
    (newRow[piece_move.new_pos.x]?).map fun _ =>
    (Board.next_turn
      { layout := layout1.set piece_move.new_pos.y (newRow.set piece_move.new_pos.x moved_piece)
        move_list := b.move_list ++ [piece_move]
        player := b.player },
     Except.ok ())

/-- Associated function `Layouts::standard`: the starting layout, black
rows first (index 0 and 1), four empty rows, then the white rows. -/
def Layouts.standard : BoardLayout :=
  [ [Square.Piece PieceColour.Black PieceKind.Rook,
     Square.Piece PieceColour.Black PieceKind.Knight,
     Square.Piece PieceColour.Black PieceKind.Bishop,
     Square.Piece PieceColour.Black PieceKind.Queen,
     Square.Piece PieceColour.Black PieceKind.King,
     Square.Piece PieceColour.Black PieceKind.Bishop,
     Square.Piece PieceColour.Black PieceKind.Knight,
     Square.Piece PieceColour.Black PieceKind.Rook],
    [Square.Piece PieceColour.Black PieceKind.Pawn,
     Square.Piece PieceColour.Black PieceKind.Pawn,
     Square.Piece PieceColour.Black PieceKind.Pawn,
     Square.Piece PieceColour.Black PieceKind.Pawn,
     Square.Piece PieceColour.Black PieceKind.Pawn,
     Square.Piece PieceColour.Black PieceKind.Pawn,
     Square.Piece PieceColour.Black PieceKind.Pawn,
     Square.Piece PieceColour.Black PieceKind.Pawn],
    [Square.Empty, Square.Empty, Square.Empty, Square.Empty,
     Square.Empty, Square.Empty, Square.Empty, Square.Empty],
    [Square.Empty, Square.Empty, Square.Empty, Square.Empty,
     Square.Empty, Square.Empty, Square.Empty, Square.Empty],
    [Square.Empty, Square.Empty, Square.Empty, Square.Empty,
     Square.Empty, Square.Empty, Square.Empty, Square.Empty],
    [Square.Empty, Square.Empty, Square.Empty, Square.Empty,
     Square.Empty, Square.Empty, Square.Empty, Square.Empty],
    [Square.Piece PieceColour.White PieceKind.Pawn,
     Square.Piece PieceColour.White PieceKind.Pawn,
     Square.Piece PieceColour.White PieceKind.Pawn,
     Square.Piece PieceColour.White PieceKind.Pawn,
     Square.Piece PieceColour.White PieceKind.Pawn,
     Square.Piece PieceColour.White PieceKind.Pawn,
     Square.Piece PieceColour.White PieceKind.Pawn,
     Square.Piece PieceColour.White PieceKind.Pawn],
    [Square.Piece PieceColour.White PieceKind.Rook,
     Square.Piece PieceColour.White PieceKind.Knight,
     Square.Piece PieceColour.White PieceKind.Bishop,
     Square.Piece PieceColour.White PieceKind.Queen,
     Square.Piece PieceColour.White PieceKind.King,
     Square.Piece PieceColour.White PieceKind.Bishop,
     Square.Piece PieceColour.White PieceKind.Knight,
     Square.Piece PieceColour.White PieceKind.Rook] ]

/-- The `Default` instance for `Board`: standard layout, empty move
list, white to move. -/
def Board.default : Board :=
  { layout := Layouts.standard
    move_list := []
    player := PieceColour.White }

/-!  Spec-side vocabulary used to state the claims. -/

/-- The square of a board at row `y`, column `x`, read through the same
panic layer as the source's indexing (`none` when out of bounds). -/
def Board.squareAt (b : Board) (y x : Nat) : Option Square :=
  (b.layout[y]?).bind fun row => row[x]?

/-- The board layout is a well-formed 8 by 8 grid. -/
def rows8 (b : Board) : Prop :=
  b.layout.length = 8 ∧ ∀ r ∈ b.layout, r.length = 8

instance : DecidablePred rows8 := fun b => by
  unfold rows8; infer_instance

/-- Sign of the file displacement `destination x - origin x`. -/
def stepSgnX (m : Move) : Int := Int.sign ((m.new_pos.x : Int) - m.old_pos.x)

/-- Sign of the rank displacement `destination y - origin y`. -/
def stepSgnY (m : Move) : Int := Int.sign ((m.new_pos.y : Int) - m.old_pos.y)

/-- Chebyshev length of a move: for a straight or diagonal move this is
the number of unit steps from origin to destination, so the strictly
interior squares of the line are the steps `1` to `lineLen - 1`. -/
def lineLen (m : Move) : Nat :=
  max ((m.new_pos.x : Int) - m.old_pos.x).natAbs ((m.new_pos.y : Int) - m.old_pos.y).natAbs

/-- Every square strictly between origin and destination along the line
of movement is empty: steps `1` to `lineLen - 1` from the origin in the
direction of the destination.  Neither endpoint is read. -/
def interiorFree (b : Board) (m : Move) : Bool :=
  (List.range (lineLen m)).all fun i =>
    decide (i = 0) ||
      decide (squareAtZ b.layout ((m.old_pos.y : Int) + i * stepSgnY m)
        ((m.old_pos.x : Int) + i * stepSgnX m) = some Square.Empty)

/-- Test fixture: the standard board with a black pawn placed on
row 4, column 0 — the destination square of the white double advance
(0,6) -> (0,4). -/
def doubleAdvanceBoard : Board :=
  { layout := Layouts.standard.set 4
      [Square.Piece PieceColour.Black PieceKind.Pawn, Square.Empty, Square.Empty, Square.Empty,
       Square.Empty, Square.Empty, Square.Empty, Square.Empty]
    move_list := []
    player := PieceColour.White }

/-- Test fixture: the board after the accepted white pawn move
(0,6) -> (0,5) on the default board (the position asserted by the
repository's own test). -/
def pawnMovedBoard : Board :=
  { layout := (Layouts.standard.set 5
      [Square.Piece PieceColour.White PieceKind.Pawn, Square.Empty, Square.Empty, Square.Empty,
       Square.Empty, Square.Empty, Square.Empty, Square.Empty]).set 6
      [Square.Empty,
       Square.Piece PieceColour.White PieceKind.Pawn,
       Square.Piece PieceColour.White PieceKind.Pawn,
       Square.Piece PieceColour.White PieceKind.Pawn,
       Square.Piece PieceColour.White PieceKind.Pawn,
       Square.Piece PieceColour.White PieceKind.Pawn,
       Square.Piece PieceColour.White PieceKind.Pawn,
       Square.Piece PieceColour.White PieceKind.Pawn]
    move_list := [⟨⟨0, 6⟩, ⟨0, 5⟩⟩]
    player := PieceColour.Black }

/-!  Theorems settling the claims. -/

/-- Short-circuit `&&` with a true right operand is the left operand. -/
theorem sAnd_some_true (a : Option Bool) : sAnd a (some true) = a := by
  cases a with
  | none => rfl
  | some x => cases x <;> rfl

/-- Short-circuit `&&` is true exactly when both operands are true. -/
theorem sAnd_eq_some_true (a b : Option Bool) :
    sAnd a b = some true ↔ a = some true ∧ b = some true := by
  cases a with
  | none => simp [sAnd]
  | some x => cases x <;> simp [sAnd]

/-- Short-circuit `||` is true exactly when the left operand is true or
the left operand is false and the right one is true. -/
theorem sOr_eq_some_true (a b : Option Bool) :
    sOr a b = some true ↔ a = some true ∨ (a = some false ∧ b = some true) := by
  cases a with
  | none => simp [sOr]
  | some x => cases x <;> simp [sOr]

/-- When the i8 casts are exact (coordinates below 128), `yDiff` is the
plain integer difference. -/
theorem i8cast_eq_of_lt {n : Nat} (h : n < 128) : i8cast n = (n : Nat) := by
  unfold i8cast
  rw [Nat.mod_eq_of_lt (by omega), if_pos h]

/-- Reduction of `check_valid` once the four in-bounds facts, the
ownership check and the non-self-capture check are known to pass: only
the piece-kind movement test remains. -/
theorem check_valid_eq_geom (b : Board) (m : Move) (oldRow newRow : List Square)
    (old_square new_square : Square)
    (h1 : b.layout[m.old_pos.y]? = some oldRow) (h2 : m.old_pos.x < oldRow.length)
    (h3 : b.layout[m.new_pos.y]? = some newRow) (h4 : m.new_pos.x < newRow.length)
    (h5 : oldRow[m.old_pos.x]? = some old_square)
    (h6 : newRow[m.new_pos.x]? = some new_square)
    (hc : old_square.colour = some b.player)
    (hsc : new_square.colour ≠ some b.player) :
    b.check_valid m = (old_square.kind.bind fun piece_kind =>
      (piece_kind.is_move_valid m b.player b).map fun valid =>
        if valid then Except.ok () else Except.error "Error: Move is invalid!") := by
  have hy1 : m.old_pos.y < b.layout.length := (List.getElem?_eq_some_iff.mp h1).1
  have hy2 : m.new_pos.y < b.layout.length := (List.getElem?_eq_some_iff.mp h3).1
  unfold Board.check_valid
  rw [if_neg (by omega : ¬ m.old_pos.y > b.layout.length), h1, Option.some_bind,
      if_neg (by omega : ¬ m.old_pos.x > oldRow.length),
      if_neg (by omega : ¬ m.new_pos.y > b.layout.length), h3, Option.some_bind,
      if_neg (by omega : ¬ m.new_pos.x > newRow.length), h5, Option.some_bind,
      h6, Option.some_bind]
  simp only [hc]
  rw [if_neg (by simp), if_neg hsc]

/-- Inversion of a successful `check_valid`: all four coordinates are
strictly in bounds, the origin holds a piece of the current player, the
destination is not a piece of the current player, and the piece-kind
movement test returned true. -/
theorem check_valid_ok_inv (b : Board) (m : Move)
    (h : b.check_valid m = some (Except.ok ())) :
    ∃ oldRow newRow old_k new_square,
      b.layout[m.old_pos.y]? = some oldRow ∧
      b.layout[m.new_pos.y]? = some newRow ∧
      oldRow[m.old_pos.x]? = some (Square.Piece b.player old_k) ∧
      newRow[m.new_pos.x]? = some new_square ∧
      new_square.colour ≠ some b.player ∧
      PieceKind.is_move_valid old_k m b.player b = some true := by
  unfold Board.check_valid at h
  by_cases hb1 : m.old_pos.y > b.layout.length
  · rw [if_pos hb1] at h; exact absurd h (by simp)
  rw [if_neg hb1, Option.bind_eq_some] at h
  obtain ⟨oldRow, h1, h⟩ := h
  by_cases hb2 : m.old_pos.x > oldRow.length
  · rw [if_pos hb2] at h; exact absurd h (by simp)
  rw [if_neg hb2] at h
  by_cases hb3 : m.new_pos.y > b.layout.length
  · rw [if_pos hb3] at h; exact absurd h (by simp)
  rw [if_neg hb3, Option.bind_eq_some] at h
  obtain ⟨newRow, h3, h⟩ := h
  by_cases hb4 : m.new_pos.x > newRow.length
  · rw [if_pos hb4] at h; exact absurd h (by simp)
  rw [if_neg hb4, Option.bind_eq_some] at h
  obtain ⟨old_square, h5, h⟩ := h
  rw [Option.bind_eq_some] at h
  obtain ⟨new_square, h6, h⟩ := h
  cases hcol : old_square.colour with
  | none => rw [hcol] at h; exact absurd h (by simp)
  | some piece_colour =>
    simp only [hcol] at h
    by_cases hown : b.player ≠ piece_colour
    · rw [if_pos hown] at h; exact absurd h (by simp)
    rw [if_neg hown] at h
    by_cases hsc : new_square.colour = some b.player
    · rw [if_pos hsc] at h; exact absurd h (by simp)
    rw [if_neg hsc, Option.bind_eq_some] at h
    obtain ⟨piece_kind, hkind, h⟩ := h
    rw [Option.map_eq_some'] at h
    obtain ⟨valid, hval, hok⟩ := h
    have hv : valid = true := by
      cases valid
      · exact absurd hok (by simp)
      · rfl
    subst hv
    have hpc : b.player = piece_colour := Decidable.not_not.mp hown
    subst hpc
    have hsq : old_square = Square.Piece b.player piece_kind := by
      cases old_square with
      | Empty => exact absurd hcol (by simp [Square.colour])
      | Piece pc pk =>
        simp [Square.colour] at hcol
        simp [Square.kind] at hkind
        rw [hcol, hkind]
    exact ⟨oldRow, newRow, piece_kind, new_square, h1, h3, hsq ▸ h5, h6, hsc, hval⟩

/-- An error from `check_valid` propagates to `move_piece` with the
board unchanged. -/
theorem move_piece_of_error (b : Board) (m : Move) (e : String)
    (h : b.check_valid m = some (Except.error e)) :
    b.move_piece m = some (b, Except.error e) := by
  unfold Board.move_piece
  rw [h]

/-- With all four coordinates in bounds and an opponent piece on the
origin, `check_valid` stops at the ownership check. -/
theorem cv_wrong_player (b : Board) (m : Move) (oldRow newRow : List Square)
    (c : PieceColour) (k : PieceKind)
    (h1 : b.layout[m.old_pos.y]? = some oldRow) (h2 : m.old_pos.x < oldRow.length)
    (h3 : b.layout[m.new_pos.y]? = some newRow) (h4 : m.new_pos.x < newRow.length)
    (h5 : oldRow[m.old_pos.x]? = some (Square.Piece c k))
    (h6 : c ≠ b.player) :
    b.check_valid m = some (Except.error "Error: You cannot move your opponent\x27s pieces!") := by
  have hy1 := (List.getElem?_eq_some_iff.mp h1).1
  have hy2 := (List.getElem?_eq_some_iff.mp h3).1
  have h6' : newRow[m.new_pos.x]? = some newRow[m.new_pos.x] := List.getElem?_eq_getElem h4
  unfold Board.check_valid
  rw [if_neg (by omega : ¬ m.old_pos.y > b.layout.length), h1, Option.some_bind,
      if_neg (by omega : ¬ m.old_pos.x > oldRow.length),
      if_neg (by omega : ¬ m.new_pos.y > b.layout.length), h3, Option.some_bind,
      if_neg (by omega : ¬ m.new_pos.x > newRow.length), h5, Option.some_bind,
      h6', Option.some_bind]
  simp only [Square.colour]
  rw [if_pos (Ne.symm h6)]

/-- With all four coordinates in bounds and an empty origin square,
`check_valid` stops at the non-empty-origin check. -/
theorem cv_empty_origin (b : Board) (m : Move) (oldRow newRow : List Square)
    (h1 : b.layout[m.old_pos.y]? = some oldRow) (h2 : m.old_pos.x < oldRow.length)
    (h3 : b.layout[m.new_pos.y]? = some newRow) (h4 : m.new_pos.x < newRow.length)
    (h5 : oldRow[m.old_pos.x]? = some Square.Empty) :
    b.check_valid m = some (Except.error "Error: You cannot move an empty square!") := by
  have hy1 := (List.getElem?_eq_some_iff.mp h1).1
  have hy2 := (List.getElem?_eq_some_iff.mp h3).1
  have h6' : newRow[m.new_pos.x]? = some newRow[m.new_pos.x] := List.getElem?_eq_getElem h4
  unfold Board.check_valid
  rw [if_neg (by omega : ¬ m.old_pos.y > b.layout.length), h1, Option.some_bind,
      if_neg (by omega : ¬ m.old_pos.x > oldRow.length),
      if_neg (by omega : ¬ m.new_pos.y > b.layout.length), h3, Option.some_bind,
      if_neg (by omega : ¬ m.new_pos.x > newRow.length), h5, Option.some_bind,
      h6', Option.some_bind]
  simp only [Square.colour]

/-- With all four coordinates in bounds, an own piece on the origin and
an own piece on the destination, `check_valid` stops at the
non-self-capture check. -/
theorem cv_self_capture (b : Board) (m : Move) (oldRow newRow : List Square)
    (k : PieceKind) (new_square : Square)
    (h1 : b.layout[m.old_pos.y]? = some oldRow) (h2 : m.old_pos.x < oldRow.length)
    (h3 : b.layout[m.new_pos.y]? = some newRow) (h4 : m.new_pos.x < newRow.length)
    (h5 : oldRow[m.old_pos.x]? = some (Square.Piece b.player k))
    (h6 : newRow[m.new_pos.x]? = some new_square)
    (hsc : new_square.colour = some b.player) :
    b.check_valid m = some (Except.error "Error: You cannot capture your own pieces!") := by
  have hy1 := (List.getElem?_eq_some_iff.mp h1).1
  have hy2 := (List.getElem?_eq_some_iff.mp h3).1
  cases new_square with
  | Empty => exact absurd hsc (by simp [Square.colour])
  | Piece pc pk =>
    have hpc : pc = b.player := by simpa [Square.colour] using hsc
    subst hpc
    unfold Board.check_valid
    rw [if_neg (by omega : ¬ m.old_pos.y > b.layout.length), h1, Option.some_bind,
        if_neg (by omega : ¬ m.old_pos.x > oldRow.length),
        if_neg (by omega : ¬ m.new_pos.y > b.layout.length), h3, Option.some_bind,
        if_neg (by omega : ¬ m.new_pos.x > newRow.length), h5, Option.some_bind,
        h6, Option.some_bind]
    simp [Square.colour]

/-- C1: the spec demands that every move with a coordinate of 8 or more
be rejected with the out-of-bounds error and that no unchecked index
fault ever occur.  The code tests `coordinate > length` instead of
`>=`, so a coordinate equal to exactly 8 slips past the test and the
following vector indexing panics: on the default board each of the four
coordinate fields set to 8 gives a panic (`none`), while 9 is duly
rejected with the out-of-bounds error. -/
theorem C1_coord_eight_panics :
    Board.default.check_valid ⟨⟨0, 8⟩, ⟨0, 0⟩⟩ = none ∧
    Board.default.check_valid ⟨⟨8, 0⟩, ⟨0, 0⟩⟩ = none ∧
    Board.default.check_valid ⟨⟨0, 0⟩, ⟨0, 8⟩⟩ = none ∧
    Board.default.check_valid ⟨⟨0, 0⟩, ⟨8, 0⟩⟩ = none ∧
    Board.default.check_valid ⟨⟨0, 9⟩, ⟨0, 0⟩⟩ =
      some (Except.error "Error: Origin square is out of bounds!") :=
  ⟨rfl, rfl, rfl, rfl, rfl⟩

/-- C10: the King and Knight arms of `is_move_valid` read only the move
coordinates, never the board; on any two boards the result is the
same. -/
theorem C10_king_knight_board_independent :
    ∀ (m : Move) (c : PieceColour) (b1 b2 : Board),
      PieceKind.is_move_valid PieceKind.King m c b1 =
        PieceKind.is_move_valid PieceKind.King m c b2 ∧
      PieceKind.is_move_valid PieceKind.Knight m c b1 =
        PieceKind.is_move_valid PieceKind.Knight m c b2 :=
  fun _ _ _ _ => ⟨rfl, rfl⟩

/-- C2: whenever `move_piece` returns an error value, the board is left
completely unchanged: layout, current player and move list all keep
their previous values. -/
theorem C2_error_leaves_board_unchanged (b : Board) (m : Move) (b' : Board) (e : String)
    (h : b.move_piece m = some (b', Except.error e)) :
    b'.layout = b.layout ∧ b'.player = b.player ∧ b'.move_list = b.move_list := by
  unfold Board.move_piece at h
  cases hcv : b.check_valid m with
  | none => rw [hcv] at h; exact absurd h (by simp)
  | some r =>
    cases r with
    | error err =>
      rw [hcv] at h
      rw [Option.some_inj, Prod.mk.injEq] at h
      rw [← h.1]
      exact ⟨rfl, rfl, rfl⟩
    | ok u =>
      rw [hcv] at h
      simp only [Option.bind_eq_some, Option.map_eq_some'] at h
      obtain ⟨row, -, p, -, ⟨nr, -, w, -, hpair⟩⟩ := h
      exact absurd (congrArg Prod.snd hpair) (by simp)

theorem C2_witness :
    Board.default.move_piece ⟨⟨0, 1⟩, ⟨0, 2⟩⟩ =
      some (Board.default, Except.error "Error: You cannot move your opponent\x27s pieces!") ∧
    Board.default.layout = Board.default.layout :=
  ⟨rfl,
   (C2_error_leaves_board_unchanged Board.default ⟨⟨0, 1⟩, ⟨0, 2⟩⟩ Board.default
      "Error: You cannot move your opponent\x27s pieces!" rfl).1⟩

/-- C7: whenever the coordinates are in bounds and the origin holds a
piece of the colour opposite to the side to move, `check_valid` returns
the wrong-player error — regardless of the geometry of the move or the
contents of the destination. -/
theorem C7_wrong_player (b : Board) (m : Move) (oldRow newRow : List Square)
    (c : PieceColour) (k : PieceKind)
    (h1 : b.layout[m.old_pos.y]? = some oldRow) (h2 : m.old_pos.x < oldRow.length)
    (h3 : b.layout[m.new_pos.y]? = some newRow) (h4 : m.new_pos.x < newRow.length)
    (h5 : oldRow[m.old_pos.x]? = some (Square.Piece c k))
    (h6 : c ≠ b.player) :
    b.check_valid m = some (Except.error "Error: You cannot move your opponent\x27s pieces!") ∧
    b.move_piece m =
      some (b, Except.error "Error: You cannot move your opponent\x27s pieces!") := by
  have hcv := cv_wrong_player b m oldRow newRow c k h1 h2 h3 h4 h5 h6
  exact ⟨hcv, move_piece_of_error b m _ hcv⟩

theorem C7_witness :
    Board.default.check_valid ⟨⟨0, 1⟩, ⟨0, 2⟩⟩ =
      some (Except.error "Error: You cannot move your opponent\x27s pieces!") ∧
    Board.default.move_piece ⟨⟨0, 1⟩, ⟨0, 2⟩⟩ =
      some (Board.default, Except.error "Error: You cannot move your opponent\x27s pieces!") :=
  C7_wrong_player Board.default ⟨⟨0, 1⟩, ⟨0, 2⟩⟩
    (List.replicate 8 (Square.Piece PieceColour.Black PieceKind.Pawn))
    (List.replicate 8 Square.Empty)
    PieceColour.Black PieceKind.Pawn rfl (by decide) rfl (by decide) rfl (by decide)

/-- C9: a move whose origin equals its destination (both in bounds)
always fails, leaving the board unchanged; when the shared square holds
a piece of the side to move the error is the self-capture error. -/
theorem C9_same_square_rejected (b : Board) (m : Move) (oldRow : List Square)
    (heq : m.old_pos = m.new_pos)
    (h1 : b.layout[m.old_pos.y]? = some oldRow) (h2 : m.old_pos.x < oldRow.length) :
    (∃ e, b.move_piece m = some (b, Except.error e)) ∧
    (∀ k, oldRow[m.old_pos.x]? = some (Square.Piece b.player k) →
      b.move_piece m = some (b, Except.error "Error: You cannot capture your own pieces!")) := by
  have hy : m.new_pos.y = m.old_pos.y := by rw [heq]
  have hx : m.new_pos.x = m.old_pos.x := by rw [heq]
  have h3 : b.layout[m.new_pos.y]? = some oldRow := by rw [hy]; exact h1
  have h4 : m.new_pos.x < oldRow.length := by rw [hx]; exact h2
  have h5 : oldRow[m.old_pos.x]? = some oldRow[m.old_pos.x] := List.getElem?_eq_getElem h2
  have h6 : oldRow[m.new_pos.x]? = some oldRow[m.old_pos.x] := by rw [hx]; exact h5
  cases hsq : oldRow[m.old_pos.x] with
  | Empty =>
    rw [hsq] at h5
    have hcv := cv_empty_origin b m oldRow oldRow h1 h2 h3 h4 h5
    refine ⟨⟨_, move_piece_of_error b m _ hcv⟩, fun k hk => ?_⟩
    rw [h5] at hk
    exact absurd (Option.some_inj.mp hk) (by simp)
  | Piece c k =>
    rw [hsq] at h5 h6
    by_cases hc : c = b.player
    · subst hc
      have hcv := cv_self_capture b m oldRow oldRow k (Square.Piece b.player k)
        h1 h2 h3 h4 h5 h6 (by simp [Square.colour])
      exact ⟨⟨_, move_piece_of_error b m _ hcv⟩, fun _ _ => move_piece_of_error b m _ hcv⟩
    · have hcv := cv_wrong_player b m oldRow oldRow c k h1 h2 h3 h4 h5 hc
      refine ⟨⟨_, move_piece_of_error b m _ hcv⟩, fun k2 hk => ?_⟩
      rw [h5] at hk
      have := Option.some_inj.mp hk
      injection this with hcc hkk
      exact absurd hcc hc

theorem C9_witness :
    Board.default.move_piece ⟨⟨0, 6⟩, ⟨0, 6⟩⟩ =
      some (Board.default, Except.error "Error: You cannot capture your own pieces!") :=
  (C9_same_square_rejected Board.default ⟨⟨0, 6⟩, ⟨0, 6⟩⟩
    (List.replicate 8 (Square.Piece PieceColour.White PieceKind.Pawn))
    rfl rfl (by decide)).2 PieceKind.Pawn rfl

/-- C8: under the in-bounds side conditions, the King movement
predicate accepts exactly the eight adjacent squares — Chebyshev
distance one — on every board (the board argument is universally
quantified on the left-hand side and absent from the right). -/
theorem C8_king_adjacent (b : Board) (m : Move) (c : PieceColour)
    (hx1 : m.old_pos.x < 8) (hy1 : m.old_pos.y < 8)
    (hx2 : m.new_pos.x < 8) (hy2 : m.new_pos.y < 8) :
    PieceKind.is_move_valid PieceKind.King m c b = some true ↔
      max ((m.new_pos.x : Int) - m.old_pos.x).natAbs
        ((m.new_pos.y : Int) - m.old_pos.y).natAbs = 1 := by
  have ex : xDiff m = (m.old_pos.x : Int) - m.new_pos.x := by
    unfold xDiff
    rw [i8cast_eq_of_lt (by omega), i8cast_eq_of_lt (by omega)]
  have ey : yDiff m = (m.old_pos.y : Int) - m.new_pos.y := by
    unfold yDiff
    rw [i8cast_eq_of_lt (by omega), i8cast_eq_of_lt (by omega)]
  simp only [PieceKind.is_move_valid, Option.some.injEq, Bool.or_eq_true, Bool.and_eq_true,
    decide_eq_true_eq, ex, ey]
  omega

theorem C8_witness :
    PieceKind.is_move_valid PieceKind.King ⟨⟨4, 4⟩, ⟨5, 5⟩⟩ PieceColour.White Board.default =
      some true :=
  (C8_king_adjacent Board.default ⟨⟨4, 4⟩, ⟨5, 5⟩⟩ PieceColour.White
    (by decide) (by decide) (by decide) (by decide)).mpr (by decide)

/-- A valid white pawn move has an old-minus-new rank delta of 1 or 2. -/
theorem pawn_white_yDiff (m : Move) (b : Board)
    (h : PieceKind.is_move_valid PieceKind.Pawn m PieceColour.White b = some true) :
    yDiff m = 1 ∨ yDiff m = 2 := by
  simp only [PieceKind.is_move_valid] at h
  rcases (sOr_eq_some_true _ _).mp h with h12 | ⟨-, hd3⟩
  · rcases (sOr_eq_some_true _ _).mp h12 with hd1 | ⟨-, hd2⟩
    · have ha := ((sAnd_eq_some_true _ _).mp hd1).1
      have hb := ((sAnd_eq_some_true _ _).mp ha).1
      have hy := ((sAnd_eq_some_true _ _).mp hb).2
      exact Or.inl (of_decide_eq_true (Option.some_inj.mp hy))
    · have ha := ((sAnd_eq_some_true _ _).mp hd2).1
      have hb := ((sAnd_eq_some_true _ _).mp ha).1
      have hy := ((sAnd_eq_some_true _ _).mp hb).1
      exact Or.inl (of_decide_eq_true (Option.some_inj.mp hy))
  · have ha := ((sAnd_eq_some_true _ _).mp hd3).1
    have hy := ((sAnd_eq_some_true _ _).mp ha).1
    exact Or.inr (of_decide_eq_true (Option.some_inj.mp hy))

/-- A valid black pawn move has an old-minus-new rank delta of -1 or -2. -/
theorem pawn_black_yDiff (m : Move) (b : Board)
    (h : PieceKind.is_move_valid PieceKind.Pawn m PieceColour.Black b = some true) :
    yDiff m = -1 ∨ yDiff m = -2 := by
  simp only [PieceKind.is_move_valid] at h
  rcases (sOr_eq_some_true _ _).mp h with h12 | ⟨-, hd3⟩
  · rcases (sOr_eq_some_true _ _).mp h12 with hd1 | ⟨-, hd2⟩
    · have ha := ((sAnd_eq_some_true _ _).mp hd1).1
      have hb := ((sAnd_eq_some_true _ _).mp ha).1
      have hy := ((sAnd_eq_some_true _ _).mp hb).2
      exact Or.inl (of_decide_eq_true (Option.some_inj.mp hy))
    · have ha := ((sAnd_eq_some_true _ _).mp hd2).1
      have hb := ((sAnd_eq_some_true _ _).mp ha).1
      have hy := ((sAnd_eq_some_true _ _).mp hb).1
      exact Or.inl (of_decide_eq_true (Option.some_inj.mp hy))
  · have ha := ((sAnd_eq_some_true _ _).mp hd3).1
    have hy := ((sAnd_eq_some_true _ _).mp ha).1
    exact Or.inr (of_decide_eq_true (Option.some_inj.mp hy))

/-- C5 counterexample: the accepted white pawn move (0,6) -> (0,5) on
the default board has a destination rank *smaller* than its origin
rank, contradicting the claim that accepted white pawn moves increase
the rank index. -/
theorem C5_counterexample :
    Board.default.check_valid ⟨⟨0, 6⟩, ⟨0, 5⟩⟩ = some (Except.ok ()) ∧
    Board.default.squareAt 6 0 = some (Square.Piece PieceColour.White PieceKind.Pawn) ∧
    ¬ ((5 : Nat) > 6) :=
  ⟨rfl, rfl, by decide⟩

/-- C5 (amended): on an 8 by 8 board, every accepted white pawn move
*decreases* the rank index and every accepted black pawn move
*increases* it — the opposite orientation from the claim. -/
theorem C5_pawn_direction (b : Board) (m : Move) (h8 : rows8 b)
    (hok : b.check_valid m = some (Except.ok ())) :
    (b.squareAt m.old_pos.y m.old_pos.x = some (Square.Piece PieceColour.White PieceKind.Pawn) →
      m.new_pos.y < m.old_pos.y) ∧
    (b.squareAt m.old_pos.y m.old_pos.x = some (Square.Piece PieceColour.Black PieceKind.Pawn) →
      m.old_pos.y < m.new_pos.y) := by
  obtain ⟨oldRow, newRow, old_k, new_square, h1, h3, h5, h6, hsc, hmv⟩ :=
    check_valid_ok_inv b m hok
  have hyo : m.old_pos.y < 8 := h8.1 ▸ (List.getElem?_eq_some_iff.mp h1).1
  have hyn : m.new_pos.y < 8 := h8.1 ▸ (List.getElem?_eq_some_iff.mp h3).1
  have hsqAt : b.squareAt m.old_pos.y m.old_pos.x = some (Square.Piece b.player old_k) := by
    unfold Board.squareAt
    rw [h1, Option.some_bind, h5]
  have hyd : yDiff m = (m.old_pos.y : Int) - m.new_pos.y := by
    unfold yDiff
    rw [i8cast_eq_of_lt (by omega), i8cast_eq_of_lt (by omega)]
  constructor
  · intro hW
    rw [hsqAt] at hW
    injection Option.some_inj.mp hW with hc hk
    rw [hk, hc] at hmv
    rcases pawn_white_yDiff m b hmv with h | h <;> omega
  · intro hB
    rw [hsqAt] at hB
    injection Option.some_inj.mp hB with hc hk
    rw [hk, hc] at hmv
    rcases pawn_black_yDiff m b hmv with h | h <;> omega

theorem C5_witness :
    rows8 Board.default ∧ (5 : Nat) < 6 :=
  ⟨by decide,
   (C5_pawn_direction Board.default ⟨⟨0, 6⟩, ⟨0, 5⟩⟩ (by decide) rfl).1 rfl⟩

/-- Characterization of the indexed scan: a hit exists at some index. -/
theorem anyIdx_eq_true {α : Type} (f : Nat → α → Bool) (n : Nat) (l : List α) :
    anyIdx f n l = true ↔ ∃ i a, l[i]? = some a ∧ f (n + i) a = true := by
  induction l generalizing n with
  | nil => simp [anyIdx]
  | cons c rest ih =>
    rw [anyIdx, Bool.or_eq_true, ih (n + 1)]
    constructor
    · rintro (h0 | ⟨i, b, hb, hf⟩)
      · exact ⟨0, c, by simp, by simpa using h0⟩
      · exact ⟨i + 1, b, by simpa using hb,
          by rw [show n + (i + 1) = n + 1 + i by omega]; exact hf⟩
    · rintro ⟨i, b, hb, hf⟩
      cases i with
      | zero =>
        rw [List.getElem?_cons_zero] at hb
        have hcb : c = b := Option.some_inj.mp hb
        rw [Nat.add_zero] at hf
        rw [hcb]
        exact Or.inl hf
      | succ j =>
        exact Or.inr ⟨j, b, by simpa using hb,
          by rw [show n + 1 + j = n + (j + 1) by omega]; exact hf⟩

/-- The same-file scan hits exactly when some square of the origin
file, at a rank strictly between the two endpoint ranks, holds a
piece. -/
theorem fileScanHit_iff (m : Move) (layout : BoardLayout) :
    fileScanHit m layout = true ↔
      ∃ y s, (layout[y]?).bind (fun r => r[m.old_pos.x]?) = some s ∧ s.isPiece = true ∧
        ((m.old_pos.y < y ∧ y < m.new_pos.y) ∨ (m.new_pos.y < y ∧ y < m.old_pos.y)) := by
  unfold fileScanHit
  rw [anyIdx_eq_true]
  constructor
  · rintro ⟨y, row, hyrow, hrow⟩
    rw [Nat.zero_add, anyIdx_eq_true] at hrow
    obtain ⟨x, s, hxs, hf⟩ := hrow
    rw [Nat.zero_add, Bool.and_eq_true, Bool.and_eq_true] at hf
    obtain ⟨hp, hxx, hbet⟩ := hf
    have hxeq : x = m.old_pos.x := of_decide_eq_true hxx
    subst hxeq
    refine ⟨y, s, ?_, hp, ?_⟩
    · rw [hyrow, Option.some_bind, hxs]
    · rw [Bool.or_eq_true, Bool.and_eq_true, Bool.and_eq_true] at hbet
      rcases hbet with ⟨ha, hb⟩ | ⟨ha, hb⟩
      · exact Or.inl ⟨of_decide_eq_true ha, of_decide_eq_true hb⟩
      · exact Or.inr ⟨of_decide_eq_true ha, of_decide_eq_true hb⟩
  · rintro ⟨y, s, hbind, hp, hbet⟩
    rw [Option.bind_eq_some] at hbind
    obtain ⟨row, hrow, hsx⟩ := hbind
    refine ⟨y, row, hrow, ?_⟩
    rw [Nat.zero_add, anyIdx_eq_true]
    refine ⟨m.old_pos.x, s, hsx, ?_⟩
    rw [Nat.zero_add, Bool.and_eq_true, Bool.and_eq_true]
    refine ⟨hp, decide_eq_true rfl, ?_⟩
    rw [Bool.or_eq_true, Bool.and_eq_true, Bool.and_eq_true]
    rcases hbet with ⟨ha, hb⟩ | ⟨ha, hb⟩
    · exact Or.inl ⟨decide_eq_true ha, decide_eq_true hb⟩
    · exact Or.inr ⟨decide_eq_true ha, decide_eq_true hb⟩

/-- The same-rank scan hits exactly when some square of the origin
rank, at a file strictly between the two endpoint files, holds a
piece. -/
theorem rankScanHit_iff (m : Move) (layout : BoardLayout) :
    rankScanHit m layout = true ↔
      ∃ x s, (layout[m.old_pos.y]?).bind (fun r => r[x]?) = some s ∧ s.isPiece = true ∧
        ((m.old_pos.x < x ∧ x < m.new_pos.x) ∨ (m.new_pos.x < x ∧ x < m.old_pos.x)) := by
  unfold rankScanHit
  rw [anyIdx_eq_true]
  constructor
  · rintro ⟨y, row, hyrow, hrow⟩
    rw [Nat.zero_add, anyIdx_eq_true] at hrow
    obtain ⟨x, s, hxs, hf⟩ := hrow
    rw [Nat.zero_add, Bool.and_eq_true, Bool.and_eq_true] at hf
    obtain ⟨hp, hyy, hbet⟩ := hf
    have hyeq : y = m.old_pos.y := of_decide_eq_true hyy
    subst hyeq
    refine ⟨x, s, ?_, hp, ?_⟩
    · rw [hyrow, Option.some_bind, hxs]
    · rw [Bool.or_eq_true, Bool.and_eq_true, Bool.and_eq_true] at hbet
      rcases hbet with ⟨ha, hb⟩ | ⟨ha, hb⟩
      · exact Or.inl ⟨of_decide_eq_true ha, of_decide_eq_true hb⟩
      · exact Or.inr ⟨of_decide_eq_true ha, of_decide_eq_true hb⟩
  · rintro ⟨x, s, hbind, hp, hbet⟩
    rw [Option.bind_eq_some] at hbind
    obtain ⟨row, hrow, hsx⟩ := hbind
    refine ⟨m.old_pos.y, row, hrow, ?_⟩
    rw [Nat.zero_add, anyIdx_eq_true]
    refine ⟨x, s, hsx, ?_⟩
    rw [Nat.zero_add, Bool.and_eq_true, Bool.and_eq_true]
    refine ⟨hp, decide_eq_true rfl, ?_⟩
    rw [Bool.or_eq_true, Bool.and_eq_true, Bool.and_eq_true]
    rcases hbet with ⟨ha, hb⟩ | ⟨ha, hb⟩
    · exact Or.inl ⟨decide_eq_true ha, decide_eq_true hb⟩
    · exact Or.inr ⟨decide_eq_true ha, decide_eq_true hb⟩

/-- On natural coordinates the `isize` indexing agrees with the plain
nested lookup. -/
theorem squareAtZ_natCast (layout : BoardLayout) (y x : Nat) :
    squareAtZ layout (y : Int) (x : Int) = (layout[y]?).bind fun r => r[x]? := by
  unfold squareAtZ
  rw [if_neg (by omega), Int.toNat_natCast, Int.toNat_natCast]

/-- On a well-formed 8 by 8 board every in-range lookup succeeds. -/
theorem squareAtZ_isSome (b : Board) (h8 : rows8 b) (y x : Int)
    (hy0 : 0 ≤ y) (hy8 : y < 8) (hx0 : 0 ≤ x) (hx8 : x < 8) :
    ∃ s, squareAtZ b.layout y x = some s := by
  unfold squareAtZ
  rw [if_neg (by omega)]
  have hyl : y.toNat < b.layout.length := by rw [h8.1]; omega
  rw [List.getElem?_eq_getElem hyl, Option.some_bind]
  have hrl : (b.layout[y.toNat]).length = 8 := h8.2 _ (b.layout.get_mem y.toNat hyl)
  have hxl : x.toNat < (b.layout[y.toNat]).length := by rw [hrl]; omega
  rw [List.getElem?_eq_getElem hxl]
  exact ⟨_, rfl⟩

/-- For a genuinely diagonal pair of endpoints the octant selection of
the source computes origin plus `i` times the coordinate signs. -/
theorem diagPos_eq_sign (m : Move) (hx : m.old_pos.x ≠ m.new_pos.x)
    (hy : m.old_pos.y ≠ m.new_pos.y) (i : Nat) :
    diagPos m i = ((m.old_pos.x : Int) + i * stepSgnX m, (m.old_pos.y : Int) + i * stepSgnY m) := by
  unfold diagPos stepSgnX stepSgnY
  rcases Nat.lt_or_ge m.old_pos.x m.new_pos.x with hxl | hxg <;>
    rcases Nat.lt_or_ge m.old_pos.y m.new_pos.y with hyl | hyg
  · rw [if_pos ⟨hxl, hyl⟩]
    have hsx : Int.sign ((m.new_pos.x : Int) - m.old_pos.x) = 1 := Int.sign_eq_one_of_pos (by omega)
    have hsy : Int.sign ((m.new_pos.y : Int) - m.old_pos.y) = 1 := Int.sign_eq_one_of_pos (by omega)
    rw [hsx, hsy]; ring_nf
  · have hyg' : m.old_pos.y > m.new_pos.y := by omega
    rw [if_neg (by omega), if_pos ⟨hxl, hyg'⟩]
    have hsx : Int.sign ((m.new_pos.x : Int) - m.old_pos.x) = 1 := Int.sign_eq_one_of_pos (by omega)
    have hsy : Int.sign ((m.new_pos.y : Int) - m.old_pos.y) = -1 :=
      Int.sign_eq_neg_one_of_neg (by omega)
    rw [hsx, hsy]; ring_nf
  · have hxg' : m.old_pos.x > m.new_pos.x := by omega
    rw [if_neg (by omega), if_neg (by omega), if_pos ⟨hxg', hyl⟩]
    have hsx : Int.sign ((m.new_pos.x : Int) - m.old_pos.x) = -1 :=
      Int.sign_eq_neg_one_of_neg (by omega)
    have hsy : Int.sign ((m.new_pos.y : Int) - m.old_pos.y) = 1 := Int.sign_eq_one_of_pos (by omega)
    rw [hsx, hsy]; ring_nf
  · rw [if_neg (by omega), if_neg (by omega), if_neg (by omega)]
    have hsx : Int.sign ((m.new_pos.x : Int) - m.old_pos.x) = -1 :=
      Int.sign_eq_neg_one_of_neg (by omega)
    have hsy : Int.sign ((m.new_pos.y : Int) - m.old_pos.y) = -1 :=
      Int.sign_eq_neg_one_of_neg (by omega)
    rw [hsx, hsy]; ring_nf

/-- The diagonal loop returns, when no lookup panics, whether all
scanned squares are empty. -/
theorem diagScan_eq (layout : BoardLayout) (m : Move) (r : Nat) : ∀ start : Nat,
    (∀ j, j < r → ((squareAtZ layout (diagPos m (start + j)).2 (diagPos m (start + j)).1).isSome
      = true)) →
    diagScan layout m start r =
      some (decide (∀ j, j < r →
        squareAtZ layout (diagPos m (start + j)).2 (diagPos m (start + j)).1 =
          some Square.Empty)) := by
  induction r with
  | zero => intro start hs; simp [diagScan]
  | succ n ih =>
    intro start hs
    have h0 := hs 0 (by omega)
    rw [Nat.add_zero] at h0
    obtain ⟨s, hsq⟩ := Option.isSome_iff_exists.mp h0
    rw [diagScan, hsq, Option.some_bind]
    by_cases hp : s.kind.isSome = true
    · rw [if_pos hp]
      have hne : ¬ (∀ j, j < n + 1 →
          squareAtZ layout (diagPos m (start + j)).2 (diagPos m (start + j)).1 =
            some Square.Empty) := by
        intro hall
        have h00 := hall 0 (by omega)
        rw [Nat.add_zero, hsq] at h00
        have : s = Square.Empty := Option.some_inj.mp h00
        rw [this] at hp
        exact absurd hp (by simp [Square.kind])
      rw [decide_eq_false hne]
    · rw [if_neg hp]
      have hse : s = Square.Empty := by
        cases s with
        | Empty => rfl
        | Piece pc pk => exact absurd (by simp [Square.kind]) hp
      rw [ih (start + 1) (fun j hj => by
        have := hs (j + 1) (by omega)
        rwa [show start + (j + 1) = start + 1 + j by omega] at this)]
      congr 1
      rw [decide_eq_decide]
      constructor
      · intro hall j hj
        cases j with
        | zero => rw [Nat.add_zero, hsq, hse]
        | succ i =>
          have := hall i (by omega)
          rwa [show start + 1 + i = start + (i + 1) by omega] at this
      · intro hall j hj
        have := hall (j + 1) (by omega)
        rwa [show start + (j + 1) = start + 1 + j by omega] at this

/-- For a vertical move on an 8 by 8 board, the declarative interior
emptiness is the negation of the same-file scan hit. -/
theorem vertical_free_iff (b : Board) (m : Move) (h8 : rows8 b)
    (hx1 : m.old_pos.x < 8) (hy1 : m.old_pos.y < 8) (hy2 : m.new_pos.y < 8)
    (hxeq : m.old_pos.x = m.new_pos.x) :
    interiorFree b m = !(fileScanHit m b.layout) := by
  have hsgnX : stepSgnX m = 0 := by
    unfold stepSgnX
    rw [hxeq]
    simp
  have hll : lineLen m = ((m.new_pos.y : Int) - m.old_pos.y).natAbs := by
    unfold lineLen
    rw [hxeq]
    simp
  rw [Bool.eq_iff_iff, Bool.not_eq_true']
  simp only [interiorFree, List.all_eq_true, List.mem_range, Bool.or_eq_true, decide_eq_true_eq]
  constructor
  · intro hif
    by_contra hhit
    rw [Bool.not_eq_false] at hhit
    obtain ⟨y, s, hlook, hpiece, hbet⟩ := (fileScanHit_iff m b.layout).mp hhit
    rcases Nat.lt_or_ge m.old_pos.y m.new_pos.y with hcmp | hcmp
    · have hsgnY : stepSgnY m = 1 := by
        unfold stepSgnY
        exact Int.sign_eq_one_of_pos (by omega)
      have hi := hif (y - m.old_pos.y) (by omega)
      rcases hi with h0 | hemp
      · omega
      · rw [hsgnY, hsgnX] at hemp
        rw [show (m.old_pos.y : Int) + ((y - m.old_pos.y : Nat) : Int) * 1 = (y : Int) by omega,
            show (m.old_pos.x : Int) + ((y - m.old_pos.y : Nat) : Int) * 0 = (m.old_pos.x : Int)
              by ring,
            squareAtZ_natCast, hlook] at hemp
        rw [Option.some_inj.mp hemp] at hpiece
        exact absurd hpiece (by simp [Square.isPiece])
    · have hsgnY : stepSgnY m = -1 := by
        unfold stepSgnY
        exact Int.sign_eq_neg_one_of_neg (by omega)
      have hi := hif (m.old_pos.y - y) (by omega)
      rcases hi with h0 | hemp
      · omega
      · rw [hsgnY, hsgnX] at hemp
        rw [show (m.old_pos.y : Int) + ((m.old_pos.y - y : Nat) : Int) * (-1) = (y : Int)
              by omega,
            show (m.old_pos.x : Int) + ((m.old_pos.y - y : Nat) : Int) * 0 = (m.old_pos.x : Int)
              by ring,
            squareAtZ_natCast, hlook] at hemp
        rw [Option.some_inj.mp hemp] at hpiece
        exact absurd hpiece (by simp [Square.isPiece])
  · intro hfree i hi
    by_cases hi0 : i = 0
    · exact Or.inl hi0
    right
    rcases Nat.lt_or_ge m.old_pos.y m.new_pos.y with hcmp | hcmp
    · have hsgnY : stepSgnY m = 1 := by
        unfold stepSgnY
        exact Int.sign_eq_one_of_pos (by omega)
      rw [hsgnY, hsgnX,
          show (m.old_pos.y : Int) + (i : Int) * 1 = ((m.old_pos.y + i : Nat) : Int) by omega,
          show (m.old_pos.x : Int) + (i : Int) * 0 = ((m.old_pos.x : Nat) : Int) by ring,
          squareAtZ_natCast]
      obtain ⟨s, hs⟩ := squareAtZ_isSome b h8 ((m.old_pos.y + i : Nat) : Int) m.old_pos.x
        (by omega) (by omega) (by omega) (by omega)
      rw [squareAtZ_natCast] at hs
      rw [hs]
      cases s with
      | Empty => rfl
      | Piece pc pk =>
        exfalso
        have htrue : fileScanHit m b.layout = true :=
          (fileScanHit_iff m b.layout).mpr
            ⟨m.old_pos.y + i, Square.Piece pc pk, hs, by simp [Square.isPiece],
             Or.inl ⟨by omega, by omega⟩⟩
        rw [hfree] at htrue
        exact Bool.false_ne_true htrue
    · have hsgnY : stepSgnY m = -1 := by
        unfold stepSgnY
        exact Int.sign_eq_neg_one_of_neg (by omega)
      rw [hsgnY, hsgnX,
          show (m.old_pos.y : Int) + (i : Int) * (-1) = ((m.old_pos.y - i : Nat) : Int)
            by omega,
          show (m.old_pos.x : Int) + (i : Int) * 0 = ((m.old_pos.x : Nat) : Int) by ring,
          squareAtZ_natCast]
      obtain ⟨s, hs⟩ := squareAtZ_isSome b h8 ((m.old_pos.y - i : Nat) : Int) m.old_pos.x
        (by omega) (by omega) (by omega) (by omega)
      rw [squareAtZ_natCast] at hs
      rw [hs]
      cases s with
      | Empty => rfl
      | Piece pc pk =>
        exfalso
        have htrue : fileScanHit m b.layout = true :=
          (fileScanHit_iff m b.layout).mpr
            ⟨m.old_pos.y - i, Square.Piece pc pk, hs, by simp [Square.isPiece],
             Or.inr ⟨by omega, by omega⟩⟩
        rw [hfree] at htrue
        exact Bool.false_ne_true htrue

/-- For a horizontal move on an 8 by 8 board, the declarative interior
emptiness is the negation of the same-rank scan hit. -/
theorem horizontal_free_iff (b : Board) (m : Move) (h8 : rows8 b)
    (hx1 : m.old_pos.x < 8) (hy1 : m.old_pos.y < 8) (hx2 : m.new_pos.x < 8)
    (hyeq : m.old_pos.y = m.new_pos.y) :
    interiorFree b m = !(rankScanHit m b.layout) := by
  have hsgnY : stepSgnY m = 0 := by
    unfold stepSgnY
    rw [hyeq]
    simp
  have hll : lineLen m = ((m.new_pos.x : Int) - m.old_pos.x).natAbs := by
    unfold lineLen
    rw [hyeq]
    simp
  rw [Bool.eq_iff_iff, Bool.not_eq_true']
  simp only [interiorFree, List.all_eq_true, List.mem_range, Bool.or_eq_true, decide_eq_true_eq]
  constructor
  · intro hif
    by_contra hhit
    rw [Bool.not_eq_false] at hhit
    obtain ⟨x, s, hlook, hpiece, hbet⟩ := (rankScanHit_iff m b.layout).mp hhit
    rcases Nat.lt_or_ge m.old_pos.x m.new_pos.x with hcmp | hcmp
    · have hsgnX : stepSgnX m = 1 := by
        unfold stepSgnX
        exact Int.sign_eq_one_of_pos (by omega)
      have hi := hif (x - m.old_pos.x) (by omega)
      rcases hi with h0 | hemp
      · omega
      · rw [hsgnY, hsgnX] at hemp
        rw [show (m.old_pos.y : Int) + ((x - m.old_pos.x : Nat) : Int) * 0 = (m.old_pos.y : Int)
              by ring,
            show (m.old_pos.x : Int) + ((x - m.old_pos.x : Nat) : Int) * 1 = (x : Int) by omega,
            squareAtZ_natCast, hlook] at hemp
        rw [Option.some_inj.mp hemp] at hpiece
        exact absurd hpiece (by simp [Square.isPiece])
    · have hsgnX : stepSgnX m = -1 := by
        unfold stepSgnX
        exact Int.sign_eq_neg_one_of_neg (by omega)
      have hi := hif (m.old_pos.x - x) (by omega)
      rcases hi with h0 | hemp
      · omega
      · rw [hsgnY, hsgnX] at hemp
        rw [show (m.old_pos.y : Int) + ((m.old_pos.x - x : Nat) : Int) * 0 = (m.old_pos.y : Int)
              by ring,
            show (m.old_pos.x : Int) + ((m.old_pos.x - x : Nat) : Int) * (-1) = (x : Int)
              by omega,
            squareAtZ_natCast, hlook] at hemp
        rw [Option.some_inj.mp hemp] at hpiece
        exact absurd hpiece (by simp [Square.isPiece])
  · intro hfree i hi
    by_cases hi0 : i = 0
    · exact Or.inl hi0
    right
    rcases Nat.lt_or_ge m.old_pos.x m.new_pos.x with hcmp | hcmp
    · have hsgnX : stepSgnX m = 1 := by
        unfold stepSgnX
        exact Int.sign_eq_one_of_pos (by omega)
      rw [hsgnY, hsgnX,
          show (m.old_pos.y : Int) + (i : Int) * 0 = ((m.old_pos.y : Nat) : Int) by ring,
          show (m.old_pos.x : Int) + (i : Int) * 1 = ((m.old_pos.x + i : Nat) : Int) by omega,
          squareAtZ_natCast]
      obtain ⟨s, hs⟩ := squareAtZ_isSome b h8 m.old_pos.y ((m.old_pos.x + i : Nat) : Int)
        (by omega) (by omega) (by omega) (by omega)
      rw [squareAtZ_natCast] at hs
      rw [hs]
      cases s with
      | Empty => rfl
      | Piece pc pk =>
        exfalso
        have htrue : rankScanHit m b.layout = true :=
          (rankScanHit_iff m b.layout).mpr
            ⟨m.old_pos.x + i, Square.Piece pc pk, hs, by simp [Square.isPiece],
             Or.inl ⟨by omega, by omega⟩⟩
        rw [hfree] at htrue
        exact Bool.false_ne_true htrue
    · have hsgnX : stepSgnX m = -1 := by
        unfold stepSgnX
        exact Int.sign_eq_neg_one_of_neg (by omega)
      rw [hsgnY, hsgnX,
          show (m.old_pos.y : Int) + (i : Int) * 0 = ((m.old_pos.y : Nat) : Int) by ring,
          show (m.old_pos.x : Int) + (i : Int) * (-1) = ((m.old_pos.x - i : Nat) : Int)
            by omega,
          squareAtZ_natCast]
      obtain ⟨s, hs⟩ := squareAtZ_isSome b h8 m.old_pos.y ((m.old_pos.x - i : Nat) : Int)
        (by omega) (by omega) (by omega) (by omega)
      rw [squareAtZ_natCast] at hs
      rw [hs]
      cases s with
      | Empty => rfl
      | Piece pc pk =>
        exfalso
        have htrue : rankScanHit m b.layout = true :=
          (rankScanHit_iff m b.layout).mpr
            ⟨m.old_pos.x - i, Square.Piece pc pk, hs, by simp [Square.isPiece],
             Or.inr ⟨by omega, by omega⟩⟩
        rw [hfree] at htrue
        exact Bool.false_ne_true htrue

/-- For a genuinely diagonal move on an 8 by 8 board, the diagonal
loop of the source computes the declarative interior emptiness. -/
theorem diagonal_scan_eq_interiorFree (b : Board) (m : Move) (h8 : rows8 b)
    (hx1 : m.old_pos.x < 8) (hy1 : m.old_pos.y < 8)
    (hx2 : m.new_pos.x < 8) (hy2 : m.new_pos.y < 8)
    (hxne : m.old_pos.x ≠ m.new_pos.x) (hyne : m.old_pos.y ≠ m.new_pos.y)
    (habs : ((m.new_pos.x : Int) - m.old_pos.x).natAbs =
      ((m.new_pos.y : Int) - m.old_pos.y).natAbs) :
    diagScan b.layout m 1 (((m.new_pos.x : Int) - m.old_pos.x).natAbs - 1) =
      some (interiorFree b m) := by
  have hll : lineLen m = ((m.new_pos.x : Int) - m.old_pos.x).natAbs := by
    unfold lineLen
    omega
  have hxb : ∀ i : Nat, i < ((m.new_pos.x : Int) - m.old_pos.x).natAbs →
      0 ≤ (m.old_pos.x : Int) + i * stepSgnX m ∧ (m.old_pos.x : Int) + i * stepSgnX m < 8 := by
    intro i hi
    rcases Nat.lt_or_ge m.old_pos.x m.new_pos.x with hc | hc
    · rw [show stepSgnX m = 1 from Int.sign_eq_one_of_pos (by omega)]
      omega
    · rw [show stepSgnX m = -1 from Int.sign_eq_neg_one_of_neg (by omega)]
      omega
  have hyb : ∀ i : Nat, i < ((m.new_pos.x : Int) - m.old_pos.x).natAbs →
      0 ≤ (m.old_pos.y : Int) + i * stepSgnY m ∧ (m.old_pos.y : Int) + i * stepSgnY m < 8 := by
    intro i hi
    rcases Nat.lt_or_ge m.old_pos.y m.new_pos.y with hc | hc
    · rw [show stepSgnY m = 1 from Int.sign_eq_one_of_pos (by omega)]
      omega
    · rw [show stepSgnY m = -1 from Int.sign_eq_neg_one_of_neg (by omega)]
      omega
  have hsome : ∀ j, j < ((m.new_pos.x : Int) - m.old_pos.x).natAbs - 1 →
      ((squareAtZ b.layout (diagPos m (1 + j)).2 (diagPos m (1 + j)).1).isSome = true) := by
    intro j hj
    rw [diagPos_eq_sign m hxne hyne (1 + j)]
    obtain ⟨s, hs⟩ := squareAtZ_isSome b h8
      ((m.old_pos.y : Int) + (1 + j : Nat) * stepSgnY m)
      ((m.old_pos.x : Int) + (1 + j : Nat) * stepSgnX m)
      (hyb (1 + j) (by omega)).1 (hyb (1 + j) (by omega)).2
      (hxb (1 + j) (by omega)).1 (hxb (1 + j) (by omega)).2
    rw [hs]
    rfl
  rw [diagScan_eq b.layout m (((m.new_pos.x : Int) - m.old_pos.x).natAbs - 1) 1 hsome]
  congr 1
  rw [Bool.eq_iff_iff, decide_eq_true_eq]
  simp only [interiorFree, List.all_eq_true, List.mem_range, Bool.or_eq_true, decide_eq_true_eq]
  constructor
  · intro hA i hi
    by_cases hi0 : i = 0
    · exact Or.inl hi0
    right
    have h2 := hA (i - 1) (by omega)
    rw [show 1 + (i - 1) = i by omega, diagPos_eq_sign m hxne hyne i] at h2
    exact h2
  · intro hall j hj
    have h2 := hall (1 + j) (by omega)
    rcases h2 with h0 | hemp
    · omega
    · rw [diagPos_eq_sign m hxne hyne (1 + j)]
      exact hemp

/-- Master lemma: on an 8 by 8 board, for any straight or diagonal
pair of endpoints (the only shapes the sliding pieces and pawns reach
the scan with), `is_path_empty` returns exactly the declarative
interior-emptiness of the line, and in particular never panics. -/
theorem is_path_empty_eq_interiorFree (b : Board) (m : Move) (h8 : rows8 b)
    (hx1 : m.old_pos.x < 8) (hy1 : m.old_pos.y < 8)
    (hx2 : m.new_pos.x < 8) (hy2 : m.new_pos.y < 8)
    (hline : m.old_pos.x = m.new_pos.x ∨ m.old_pos.y = m.new_pos.y ∨
      ((m.new_pos.x : Int) - m.old_pos.x).natAbs =
        ((m.new_pos.y : Int) - m.old_pos.y).natAbs) :
    is_path_empty m b = some (interiorFree b m) := by
  have ex : xDiff m = (m.old_pos.x : Int) - m.new_pos.x := by
    unfold xDiff
    rw [i8cast_eq_of_lt (by omega), i8cast_eq_of_lt (by omega)]
  have ey : yDiff m = (m.old_pos.y : Int) - m.new_pos.y := by
    unfold yDiff
    rw [i8cast_eq_of_lt (by omega), i8cast_eq_of_lt (by omega)]
  by_cases hxeq : m.old_pos.x = m.new_pos.x
  · have hIF := vertical_free_iff b m h8 hx1 hy1 hy2 hxeq
    cases hfs : fileScanHit m b.layout with
    | true =>
      rw [hfs] at hIF
      unfold is_path_empty
      rw [if_pos ⟨hxeq, hfs⟩, hIF]
      rfl
    | false =>
      rw [hfs] at hIF
      by_cases hyeq : m.old_pos.y = m.new_pos.y
      · have hrs : rankScanHit m b.layout = false := by
          by_contra hh
          rw [Bool.not_eq_false] at hh
          obtain ⟨x, s, -, -, hbet⟩ := (rankScanHit_iff m b.layout).mp hh
          omega
        unfold is_path_empty
        rw [if_neg (fun hc => Bool.false_ne_true (hfs ▸ hc.2)),
            if_neg (fun hc => Bool.false_ne_true (hrs ▸ hc.2))]
        simp only []
        rw [if_pos (by rw [ex, ey]; omega : (xDiff m).natAbs = (yDiff m).natAbs)]
        rw [show (xDiff m).natAbs = 0 by rw [ex]; omega]
        rw [hIF]
        rfl
      · unfold is_path_empty
        rw [if_neg (fun hc => Bool.false_ne_true (hfs ▸ hc.2)),
            if_neg (fun hc => hyeq hc.1)]
        simp only []
        rw [if_neg (by rw [ex, ey]; omega : ¬ (xDiff m).natAbs = (yDiff m).natAbs)]
        rw [hIF]
        rfl
  · by_cases hyeq : m.old_pos.y = m.new_pos.y
    · have hIF := horizontal_free_iff b m h8 hx1 hy1 hx2 hyeq
      cases hrs : rankScanHit m b.layout with
      | true =>
        rw [hrs] at hIF
        unfold is_path_empty
        rw [if_neg (fun hc => hxeq hc.1), if_pos ⟨hyeq, hrs⟩, hIF]
        rfl
      | false =>
        rw [hrs] at hIF
        unfold is_path_empty
        rw [if_neg (fun hc => hxeq hc.1),
            if_neg (fun hc => Bool.false_ne_true (hrs ▸ hc.2))]
        simp only []
        rw [if_neg (by rw [ex, ey]; omega : ¬ (xDiff m).natAbs = (yDiff m).natAbs)]
        rw [hIF]
        rfl
    · have habs : ((m.new_pos.x : Int) - m.old_pos.x).natAbs =
          ((m.new_pos.y : Int) - m.old_pos.y).natAbs := by
        rcases hline with h | h | h
        · exact absurd h hxeq
        · exact absurd h hyeq
        · exact h
      unfold is_path_empty
      rw [if_neg (fun hc => hxeq hc.1), if_neg (fun hc => hyeq hc.1)]
      simp only []
      rw [if_pos (by rw [ex, ey]; omega : (xDiff m).natAbs = (yDiff m).natAbs)]
      rw [show (xDiff m).natAbs = ((m.new_pos.x : Int) - m.old_pos.x).natAbs by rw [ex]; omega]
      exact diagonal_scan_eq_interiorFree b m h8 hx1 hy1 hx2 hy2 hxeq hyeq habs

/-- C6: for a Rook, Bishop or Queen move that passes the bounds,
non-empty-origin, ownership and non-self-capture checks and satisfies
its piece's geometry test, the move is accepted exactly when every
square strictly between origin and destination along the line is empty
(`interiorFree` reads only the strictly interior steps 1 to
`lineLen - 1`, never the endpoints), and an occupied interior square
yields precisely the illegal-geometry error. -/
theorem C6_sliding_obstruction (b : Board) (m : Move) (h8 : rows8 b)
    (c : PieceColour) (k : PieceKind) (sd : Square)
    (horig : b.squareAt m.old_pos.y m.old_pos.x = some (Square.Piece c k))
    (hck : c = b.player)
    (hk : k = PieceKind.Rook ∨ k = PieceKind.Bishop ∨ k = PieceKind.Queen)
    (hdest : b.squareAt m.new_pos.y m.new_pos.x = some sd)
    (hsc : sd.colour ≠ some b.player)
    (hgeom : slideGeom k m = true) :
    (b.check_valid m = some (Except.ok ()) ↔ interiorFree b m = true) ∧
    (interiorFree b m = false →
      b.check_valid m = some (Except.error "Error: Move is invalid!")) := by
  unfold Board.squareAt at horig hdest
  obtain ⟨oldRow, hrow1, hs5⟩ := Option.bind_eq_some.mp horig
  obtain ⟨newRow, hrow2, hs6⟩ := Option.bind_eq_some.mp hdest
  have hy1 : m.old_pos.y < 8 := h8.1 ▸ (List.getElem?_eq_some_iff.mp hrow1).1
  have hy2 : m.new_pos.y < 8 := h8.1 ▸ (List.getElem?_eq_some_iff.mp hrow2).1
  have hx1 : m.old_pos.x < 8 :=
    h8.2 oldRow (List.getElem?_mem hrow1) ▸ (List.getElem?_eq_some_iff.mp hs5).1
  have hx2 : m.new_pos.x < 8 :=
    h8.2 newRow (List.getElem?_mem hrow2) ▸ (List.getElem?_eq_some_iff.mp hs6).1
  have ex : xDiff m = (m.old_pos.x : Int) - m.new_pos.x := by
    unfold xDiff
    rw [i8cast_eq_of_lt (by omega), i8cast_eq_of_lt (by omega)]
  have ey : yDiff m = (m.old_pos.y : Int) - m.new_pos.y := by
    unfold yDiff
    rw [i8cast_eq_of_lt (by omega), i8cast_eq_of_lt (by omega)]
  have hline : m.old_pos.x = m.new_pos.x ∨ m.old_pos.y = m.new_pos.y ∨
      ((m.new_pos.x : Int) - m.old_pos.x).natAbs =
        ((m.new_pos.y : Int) - m.old_pos.y).natAbs := by
    have hg2 := hgeom
    rcases hk with hkr | hkb | hkq
    · rw [hkr] at hg2
      simp only [slideGeom, Bool.or_eq_true, Bool.and_eq_true, decide_eq_true_eq] at hg2
      rcases hg2 with ⟨ha, -⟩ | ⟨ha, -⟩
      · exact Or.inl ha
      · exact Or.inr (Or.inl ha)
    · rw [hkb] at hg2
      simp only [slideGeom, decide_eq_true_eq] at hg2
      rw [ex, ey] at hg2
      exact Or.inr (Or.inr (by omega))
    · rw [hkq] at hg2
      simp only [slideGeom, Bool.or_eq_true, Bool.and_eq_true, decide_eq_true_eq] at hg2
      rcases hg2 with ha | (⟨ha, -⟩ | ⟨ha, -⟩)
      · rw [ex, ey] at ha
        exact Or.inr (Or.inr (by omega))
      · exact Or.inl ha
      · exact Or.inr (Or.inl ha)
  have hpath := is_path_empty_eq_interiorFree b m h8 hx1 hy1 hx2 hy2 hline
  have hgeq := check_valid_eq_geom b m oldRow newRow (Square.Piece c k) sd
    hrow1 ((List.getElem?_eq_some_iff.mp hs5).1) hrow2 ((List.getElem?_eq_some_iff.mp hs6).1)
    hs5 hs6 (by simp [Square.colour, hck]) hsc
  rw [show (Square.Piece c k).kind = some k from rfl, Option.some_bind] at hgeq
  have hmv : PieceKind.is_move_valid k m b.player b = some (interiorFree b m) := by
    rcases hk with hk | hk | hk <;>
      (subst hk
       simp only [PieceKind.is_move_valid]
       rw [hpath, hgeom, sAnd_some_true])
  rw [hmv, Option.map_some'] at hgeq
  refine ⟨⟨fun hok => ?_, fun hIF => ?_⟩, fun hIF => ?_⟩
  · cases hIF : interiorFree b m
    · rw [hgeq, hIF] at hok
      exact absurd (Option.some_inj.mp hok) (by simp)
    · rfl
  · rw [hgeq, hIF]
    rfl
  · rw [hgeq, hIF]
    rfl

theorem C6_witness :
    Board.default.check_valid ⟨⟨0, 7⟩, ⟨0, 5⟩⟩ =
      some (Except.error "Error: Move is invalid!") ∧
    Board.check_valid
      { layout := Layouts.standard.set 6 (List.replicate 8 Square.Empty)
        move_list := []
        player := PieceColour.White } ⟨⟨0, 7⟩, ⟨0, 5⟩⟩ = some (Except.ok ()) :=
  ⟨(C6_sliding_obstruction Board.default ⟨⟨0, 7⟩, ⟨0, 5⟩⟩ (by decide)
      PieceColour.White PieceKind.Rook Square.Empty rfl rfl (Or.inl rfl) rfl
      (by decide) (by decide)).2 (by decide),
   (C6_sliding_obstruction
      { layout := Layouts.standard.set 6 (List.replicate 8 Square.Empty)
        move_list := []
        player := PieceColour.White } ⟨⟨0, 7⟩, ⟨0, 5⟩⟩ (by decide)
      PieceColour.White PieceKind.Rook Square.Empty (by decide) rfl (Or.inl rfl) (by decide)
      (by decide) (by decide)).1.mpr (by decide)⟩

/-- Short-circuit `&&` with a false right operand is false. -/
theorem sAnd_some_false (v : Bool) :
    sAnd (some v) (some false) = some false := by
  cases v <;> rfl

/-- Short-circuit `&&` with a false left operand is false without
evaluating the right operand. -/
theorem sAnd_false_left (x : Option Bool) : sAnd (some false) x = some false := rfl

/-- Short-circuit `&&` with a true left operand is the right operand. -/
theorem sAnd_true_left (x : Option Bool) : sAnd (some true) x = x := rfl

/-- Short-circuit `||` with a false left operand is the right operand. -/
theorem sOr_false_left (x : Option Bool) : sOr (some false) x = x := rfl

/-- C4 counterexample: on the fixture board, the white pawn double
advance (0,6) -> (0,4) whose destination holds a black pawn passes
every check and is accepted — the destination square is never required
to be empty for a double advance. -/
theorem C4_counterexample :
    doubleAdvanceBoard.squareAt 6 0 = some (Square.Piece PieceColour.White PieceKind.Pawn) ∧
    doubleAdvanceBoard.squareAt 4 0 = some (Square.Piece PieceColour.Black PieceKind.Pawn) ∧
    doubleAdvanceBoard.player = PieceColour.White ∧
    doubleAdvanceBoard.check_valid ⟨⟨0, 6⟩, ⟨0, 4⟩⟩ = some (Except.ok ()) ∧
    (doubleAdvanceBoard.move_piece ⟨⟨0, 6⟩, ⟨0, 4⟩⟩).map Prod.snd = some (Except.ok ()) :=
  ⟨rfl, rfl, rfl, rfl, rfl⟩

/-- C4 (amended): a pawn double advance that passes the bounds,
non-empty-origin, ownership and non-self-capture checks is accepted
exactly when the single square strictly between origin and destination
is empty; the destination square's contents play no role (beyond the
already-passed non-self-capture check). -/
theorem C4_double_advance (b : Board) (m : Move) (h8 : rows8 b)
    (c : PieceColour) (sd : Square)
    (horig : b.squareAt m.old_pos.y m.old_pos.x = some (Square.Piece c PieceKind.Pawn))
    (hck : c = b.player)
    (hdest : b.squareAt m.new_pos.y m.new_pos.x = some sd)
    (hsc : sd.colour ≠ some b.player)
    (hdx : m.old_pos.x = m.new_pos.x)
    (hdy : (c = PieceColour.White ∧ m.old_pos.y = m.new_pos.y + 2) ∨
           (c = PieceColour.Black ∧ m.new_pos.y = m.old_pos.y + 2)) :
    b.check_valid m = some (Except.ok ()) ↔
      b.squareAt ((m.old_pos.y + m.new_pos.y) / 2) m.old_pos.x = some Square.Empty := by
  unfold Board.squareAt at horig hdest
  obtain ⟨oldRow, hrow1, hs5⟩ := Option.bind_eq_some.mp horig
  obtain ⟨newRow, hrow2, hs6⟩ := Option.bind_eq_some.mp hdest
  have hy1 : m.old_pos.y < 8 := h8.1 ▸ (List.getElem?_eq_some_iff.mp hrow1).1
  have hy2 : m.new_pos.y < 8 := h8.1 ▸ (List.getElem?_eq_some_iff.mp hrow2).1
  have hx1 : m.old_pos.x < 8 :=
    h8.2 oldRow (List.getElem?_mem hrow1) ▸ (List.getElem?_eq_some_iff.mp hs5).1
  have hx2 : m.new_pos.x < 8 :=
    h8.2 newRow (List.getElem?_mem hrow2) ▸ (List.getElem?_eq_some_iff.mp hs6).1
  have ex : xDiff m = (m.old_pos.x : Int) - m.new_pos.x := by
    unfold xDiff
    rw [i8cast_eq_of_lt (by omega), i8cast_eq_of_lt (by omega)]
  have ey : yDiff m = (m.old_pos.y : Int) - m.new_pos.y := by
    unfold yDiff
    rw [i8cast_eq_of_lt (by omega), i8cast_eq_of_lt (by omega)]
  have hyarith : m.old_pos.y = m.new_pos.y + 2 ∨ m.new_pos.y = m.old_pos.y + 2 := by
    rcases hdy with ⟨-, h⟩ | ⟨-, h⟩
    · exact Or.inl h
    · exact Or.inr h
  have hpath := is_path_empty_eq_interiorFree b m h8 hx1 hy1 hx2 hy2 (Or.inl hdx)
  have hgeq := check_valid_eq_geom b m oldRow newRow (Square.Piece c PieceKind.Pawn) sd
    hrow1 ((List.getElem?_eq_some_iff.mp hs5).1) hrow2 ((List.getElem?_eq_some_iff.mp hs6).1)
    hs5 hs6 (by simp [Square.colour, hck]) hsc
  rw [show (Square.Piece c PieceKind.Pawn).kind = some PieceKind.Pawn from rfl,
      Option.some_bind] at hgeq
  have hsgx : stepSgnX m = 0 := by
    unfold stepSgnX
    rw [hdx]
    simp
  have hll : lineLen m = 2 := by
    unfold lineLen
    rw [hdx]
    omega
  rcases hdy with ⟨hcw, hyy⟩ | ⟨hcb, hyy⟩
  · have hbp : b.player = PieceColour.White := hck.symm.trans hcw
    have hyd2 : yDiff m = 2 := by rw [ey]; omega
    have hsgy : stepSgnY m = -1 := by
      unfold stepSgnY
      exact Int.sign_eq_neg_one_of_neg (by omega)
    have hmv : PieceKind.is_move_valid PieceKind.Pawn m b.player b =
        some (interiorFree b m) := by
      rw [hbp]
      simp only [PieceKind.is_move_valid, hpath,
        show decide (yDiff m = 1) = false from decide_eq_false (by omega),
        show decide (yDiff m = 2) = true from decide_eq_true hyd2,
        show decide (m.old_pos.x = m.new_pos.x) = true from decide_eq_true hdx,
        sAnd_some_false, sAnd_false_left, sAnd_true_left, sAnd_some_true, sOr_false_left]
    rw [hmv, Option.map_some'] at hgeq
    have hmid : interiorFree b m = true ↔
        b.squareAt ((m.old_pos.y + m.new_pos.y) / 2) m.old_pos.x = some Square.Empty := by
      simp only [interiorFree, List.all_eq_true, List.mem_range, Bool.or_eq_true,
        decide_eq_true_eq]
      constructor
      · intro hall
        have h1 := hall 1 (by rw [hll]; omega)
        rcases h1 with h0 | hemp
        · omega
        · rw [hsgy, hsgx,
              show (m.old_pos.y : Int) + ((1 : Nat) : Int) * (-1) =
                (((m.old_pos.y + m.new_pos.y) / 2 : Nat) : Int) by omega,
              show (m.old_pos.x : Int) + ((1 : Nat) : Int) * 0 = ((m.old_pos.x : Nat) : Int)
                by ring,
              squareAtZ_natCast] at hemp
          unfold Board.squareAt
          exact hemp
      · intro hm i hi
        rw [hll] at hi
        by_cases hi0 : i = 0
        · exact Or.inl hi0
        right
        have hi1 : i = 1 := by omega
        subst hi1
        rw [hsgy, hsgx,
            show (m.old_pos.y : Int) + ((1 : Nat) : Int) * (-1) =
              (((m.old_pos.y + m.new_pos.y) / 2 : Nat) : Int) by omega,
            show (m.old_pos.x : Int) + ((1 : Nat) : Int) * 0 = ((m.old_pos.x : Nat) : Int)
              by ring,
            squareAtZ_natCast]
        unfold Board.squareAt at hm
        exact hm
    rw [hgeq]
    constructor
    · intro hok
      cases hIF : interiorFree b m
      · rw [hIF] at hok
        exact absurd (Option.some_inj.mp hok) (by simp)
      · exact hmid.mp hIF
    · intro hm
      rw [hmid.mpr hm]
      rfl
  · have hbp : b.player = PieceColour.Black := hck.symm.trans hcb
    have hyd2 : yDiff m = -2 := by rw [ey]; omega
    have hsgy : stepSgnY m = 1 := by
      unfold stepSgnY
      exact Int.sign_eq_one_of_pos (by omega)
    have hmv : PieceKind.is_move_valid PieceKind.Pawn m b.player b =
        some (interiorFree b m) := by
      rw [hbp]
      simp only [PieceKind.is_move_valid, hpath,
        show decide (yDiff m = -1) = false from decide_eq_false (by omega),
        show decide (yDiff m = -2) = true from decide_eq_true hyd2,
        show decide (m.old_pos.x = m.new_pos.x) = true from decide_eq_true hdx,
        sAnd_some_false, sAnd_false_left, sAnd_true_left, sAnd_some_true, sOr_false_left]
    rw [hmv, Option.map_some'] at hgeq
    have hmid : interiorFree b m = true ↔
        b.squareAt ((m.old_pos.y + m.new_pos.y) / 2) m.old_pos.x = some Square.Empty := by
      simp only [interiorFree, List.all_eq_true, List.mem_range, Bool.or_eq_true,
        decide_eq_true_eq]
      constructor
      · intro hall
        have h1 := hall 1 (by rw [hll]; omega)
        rcases h1 with h0 | hemp
        · omega
        · rw [hsgy, hsgx,
              show (m.old_pos.y : Int) + ((1 : Nat) : Int) * 1 =
                (((m.old_pos.y + m.new_pos.y) / 2 : Nat) : Int) by omega,
              show (m.old_pos.x : Int) + ((1 : Nat) : Int) * 0 = ((m.old_pos.x : Nat) : Int)
                by ring,
              squareAtZ_natCast] at hemp
          unfold Board.squareAt
          exact hemp
      · intro hm i hi
        rw [hll] at hi
        by_cases hi0 : i = 0
        · exact Or.inl hi0
        right
        have hi1 : i = 1 := by omega
        subst hi1
        rw [hsgy, hsgx,
            show (m.old_pos.y : Int) + ((1 : Nat) : Int) * 1 =
              (((m.old_pos.y + m.new_pos.y) / 2 : Nat) : Int) by omega,
            show (m.old_pos.x : Int) + ((1 : Nat) : Int) * 0 = ((m.old_pos.x : Nat) : Int)
              by ring,
            squareAtZ_natCast]
        unfold Board.squareAt at hm
        exact hm
    rw [hgeq]
    constructor
    · intro hok
      cases hIF : interiorFree b m
      · rw [hIF] at hok
        exact absurd (Option.some_inj.mp hok) (by simp)
      · exact hmid.mp hIF
    · intro hm
      rw [hmid.mpr hm]
      rfl

theorem C4_witness :
    doubleAdvanceBoard.check_valid ⟨⟨0, 6⟩, ⟨0, 4⟩⟩ = some (Except.ok ()) :=
  (C4_double_advance doubleAdvanceBoard ⟨⟨0, 6⟩, ⟨0, 4⟩⟩ (by decide)
    PieceColour.White (Square.Piece PieceColour.Black PieceKind.Pawn)
    rfl rfl rfl (by decide) rfl (Or.inl ⟨rfl, rfl⟩)).mpr rfl

/-- C3: a successful `move_piece` empties the origin, writes exactly
the piece that was on the origin to the destination (discarding any
previous occupant), changes no other square, appends the move to the
history and flips the side to move. -/
theorem C3_move_success (b : Board) (m : Move) (b' : Board)
    (hmp : b.move_piece m = some (b', Except.ok ())) :
    b'.squareAt m.old_pos.y m.old_pos.x = some Square.Empty ∧
    b'.squareAt m.new_pos.y m.new_pos.x = b.squareAt m.old_pos.y m.old_pos.x ∧
    (∀ y x : Nat, ¬(y = m.old_pos.y ∧ x = m.old_pos.x) →
      ¬(y = m.new_pos.y ∧ x = m.new_pos.x) → b'.squareAt y x = b.squareAt y x) ∧
    b'.move_list = b.move_list ++ [m] ∧
    (b.player = PieceColour.White → b'.player = PieceColour.Black) ∧
    (b.player = PieceColour.Black → b'.player = PieceColour.White) := by
  unfold Board.move_piece at hmp
  cases hcv : b.check_valid m with
  | none => rw [hcv] at hmp; exact absurd hmp (by simp)
  | some r =>
    cases r with
    | error e =>
      rw [hcv] at hmp
      rw [Option.some_inj] at hmp
      exact absurd (congrArg Prod.snd hmp) (by simp)
    | ok u =>
      rw [hcv] at hmp
      simp only [Option.bind_eq_some, Option.map_eq_some'] at hmp
      obtain ⟨oldRow, h1, moved, h5, newRow, hnr, w, hw, hpair⟩ := hmp
      obtain ⟨oR, nR, k, ns, i1, i3, i5, i6, insc, -⟩ := check_valid_ok_inv b m hcv
      have hoo : oR = oldRow := by
        rw [h1] at i1
        exact (Option.some_inj.mp i1).symm
      rw [hoo] at i5
      have hmoved : moved = Square.Piece b.player k := by
        rw [i5] at h5
        exact (Option.some_inj.mp h5).symm
      have hyo : m.old_pos.y < b.layout.length := (List.getElem?_eq_some_iff.mp h1).1
      have hxo : m.old_pos.x < oldRow.length := (List.getElem?_eq_some_iff.mp h5).1
      have hyn : m.new_pos.y < b.layout.length := by
        have := (List.getElem?_eq_some_iff.mp hnr).1
        simpa using this
      have hxw : m.new_pos.x < newRow.length := (List.getElem?_eq_some_iff.mp hw).1
      have hne : ¬(m.new_pos.y = m.old_pos.y ∧ m.new_pos.x = m.old_pos.x) := by
        rintro ⟨hyy, hxx⟩
        rw [hyy, h1] at i3
        have hnro : nR = oldRow := Option.some_inj.mp i3.symm
        rw [hnro, hxx, i5] at i6
        have hns : ns = Square.Piece b.player k := (Option.some_inj.mp i6).symm
        rw [hns] at insc
        exact insc (by simp [Square.colour])
      have hb' : Board.next_turn
          { layout := (b.layout.set m.old_pos.y (oldRow.set m.old_pos.x Square.Empty)).set
              m.new_pos.y (newRow.set m.new_pos.x moved)
            move_list := b.move_list ++ [m]
            player := b.player } = b' := congrArg Prod.fst hpair
      subst hb'
      refine ⟨?_, ?_, ?_, rfl, fun hp => by rw [Board.next_turn, hp], fun hp => by
        rw [Board.next_turn, hp]⟩
      · simp only [Board.next_turn, Board.squareAt]
        by_cases hyy : m.new_pos.y = m.old_pos.y
        · have hxx : m.new_pos.x ≠ m.old_pos.x := fun hc => hne ⟨hyy, hc⟩
          have hnewRow : newRow = oldRow.set m.old_pos.x Square.Empty := by
            rw [hyy, List.getElem?_set_self hyo] at hnr
            exact (Option.some_inj.mp hnr).symm
          rw [hyy, List.getElem?_set_self (by simpa using hyo), Option.some_bind,
              List.getElem?_set_ne hxx, hnewRow,
              List.getElem?_set_self (by simpa using hxo)]
        · rw [List.getElem?_set_ne hyy, List.getElem?_set_self hyo, Option.some_bind,
              List.getElem?_set_self hxo]
      · simp only [Board.next_turn, Board.squareAt]
        rw [List.getElem?_set_self (by simpa using hyn), Option.some_bind,
            List.getElem?_set_self hxw, h1, Option.some_bind, h5]
      · intro y x hnold hnnew
        simp only [Board.next_turn, Board.squareAt]
        by_cases hyy : y = m.new_pos.y
        · have hxx : x ≠ m.new_pos.x := fun hc => hnnew ⟨hyy, hc⟩
          rw [← hyy, List.getElem?_set_self (by rw [← hyy] at hyn; simpa using hyn),
              Option.some_bind, List.getElem?_set_ne (Ne.symm hxx)]
          by_cases hyo' : y = m.old_pos.y
          · have hxo' : x ≠ m.old_pos.x := fun hc => hnold ⟨hyo', hc⟩
            have hnn : m.new_pos.y = m.old_pos.y := hyy.symm.trans hyo'
            have hnewRow : newRow = oldRow.set m.old_pos.x Square.Empty := by
              rw [hnn, List.getElem?_set_self hyo] at hnr
              exact (Option.some_inj.mp hnr).symm
            rw [hnewRow, List.getElem?_set_ne (Ne.symm hxo'), hyo', h1, Option.some_bind]
          · have hnewRow : b.layout[y]? = some newRow := by
              rw [← hyy, List.getElem?_set_ne (fun hc => hyo' hc.symm)] at hnr
              exact hnr
            rw [hnewRow, Option.some_bind]
        · rw [List.getElem?_set_ne (fun hc => hyy hc.symm)]
          by_cases hyo' : y = m.old_pos.y
          · have hxo' : x ≠ m.old_pos.x := fun hc => hnold ⟨hyo', hc⟩
            rw [hyo', List.getElem?_set_self hyo, Option.some_bind, h1, Option.some_bind,
                List.getElem?_set_ne (Ne.symm hxo')]
          · rw [List.getElem?_set_ne (fun hc => hyo' hc.symm)]

theorem C3_witness :
    Board.default.move_piece ⟨⟨0, 6⟩, ⟨0, 5⟩⟩ = some (pawnMovedBoard, Except.ok ()) ∧
    pawnMovedBoard.squareAt 6 0 = some Square.Empty ∧
    pawnMovedBoard.squareAt 5 0 = Board.default.squareAt 6 0 ∧
    pawnMovedBoard.move_list = Board.default.move_list ++ [⟨⟨0, 6⟩, ⟨0, 5⟩⟩] :=
  ⟨rfl,
   (C3_move_success Board.default ⟨⟨0, 6⟩, ⟨0, 5⟩⟩ pawnMovedBoard rfl).1,
   (C3_move_success Board.default ⟨⟨0, 6⟩, ⟨0, 5⟩⟩ pawnMovedBoard rfl).2.1,
   (C3_move_success Board.default ⟨⟨0, 6⟩, ⟨0, 5⟩⟩ pawnMovedBoard rfl).2.2.2.1⟩

end Chess
